import Mathlib

/-!
Verification of the relay protocol client of `gmsv_remote_extension`
(`src/extension/modules/relay.ts` and `src/extension/modules/xor.ts`).

The payload transform (`encode`/`decode`), the XOR obfuscation
(`xorBuffer`) and the `RelayClient` state machine are embedded shallowly:
JS strings are lists of Unicode scalar values, Node `Buffer`s are lists of
byte values, JSON values are the inductive `Json`, and the event handlers
of `RelayClient.connect` become pure functions from a client state to a
new state plus a list of observable effects (promise settlements, sent
frames, invoked callbacks, timers).
-/

namespace GmsvRemote

/-! ## JSON values

`Json` models the JSON-serializable JS values that `JSON.stringify` /
`JSON.parse` exchange: strings are lists of Unicode scalar values and
numbers are integers (the integral doubles exchanged by this protocol).
-/

inductive Json where
  | null
  | bool (b : Bool)
  | num (n : Int)
  | str (s : List Nat)
  | arr (elems : List Json)
  | obj (fields : List (List Nat × Json))

/-- A Unicode scalar value: a valid code point that is not a surrogate. -/
def scalarOk (c : Nat) : Bool := decide (c < 1114112) && !(decide (55296 ≤ c) && decide (c < 57344))

mutual

/-- Well-formedness of an embedded JSON value: strings hold Unicode scalar
values and numbers are integers exactly representable as doubles. -/
def Json.wf : Json → Bool
  | .null => true
  | .bool _ => true
  | .num n => decide (n.natAbs ≤ 9007199254740992)
  | .str s => s.all scalarOk
  | .arr l => Json.wfList l
  | .obj l => Json.wfFields l

def Json.wfList : List Json → Bool
  | [] => true
  | j :: rest => j.wf && Json.wfList rest

def Json.wfFields : List (List Nat × Json) → Bool
  | [] => true
  | (k, v) :: rest => k.all scalarOk && v.wf && Json.wfFields rest

end

/-! ## UTF-8 (`Buffer.from(·, "utf8")` / `buffer.toString("utf8")`) -/

/-- UTF-8 encoding of one Unicode scalar value. -/
def utf8EncodeChar (c : Nat) : List Nat :=
  if c < 128 then [c]
  else if c < 2048 then [192 + c / 64, 128 + c % 64]
  else if c < 65536 then [224 + c / 4096, 128 + (c / 64) % 64, 128 + c % 64]
  else [240 + c / 262144, 128 + (c / 4096) % 64, 128 + (c / 64) % 64, 128 + c % 64]

/-- UTF-8 encoding of a JS string (list of scalar values) to bytes. -/
def utf8Encode (s : List Nat) : List Nat := (s.map utf8EncodeChar).flatten

/-- Decode one UTF-8 encoded character from the front of a byte list. -/
def utf8DecodeChar (l : List Nat) : Option (Nat × List Nat) :=
  match l with
  | [] => none
  | b :: rest =>
    if b < 128 then some (b, rest)
    else if b < 192 then none
    else if b < 224 then
      match rest with
      | b1 :: r =>
        if 128 ≤ b1 ∧ b1 < 192 then some ((b - 192) * 64 + (b1 - 128), r) else none
      | [] => none
    else if b < 240 then
      match rest with
      | b1 :: b2 :: r =>
        if (128 ≤ b1 ∧ b1 < 192) ∧ (128 ≤ b2 ∧ b2 < 192) then
          some (((b - 224) * 64 + (b1 - 128)) * 64 + (b2 - 128), r)
        else none
      | _ => none
    else if b < 248 then
      match rest with
      | b1 :: b2 :: b3 :: r =>
        if (128 ≤ b1 ∧ b1 < 192) ∧ (128 ≤ b2 ∧ b2 < 192) ∧ (128 ≤ b3 ∧ b3 < 192) then
          some ((((b - 240) * 64 + (b1 - 128)) * 64 + (b2 - 128)) * 64 + (b3 - 128), r)
        else none
      | _ => none
    else none

theorem utf8EncodeChar_ne_nil (c : Nat) : utf8EncodeChar c ≠ [] := by
  unfold utf8EncodeChar
  split <;> simp_all
  split <;> simp_all
  split <;> simp_all

theorem utf8EncodeChar_bytes_lt (c : Nat) (hc : c < 1114112) :
    ∀ b ∈ utf8EncodeChar c, b < 256 := by
  intro b hb
  unfold utf8EncodeChar at hb
  split at hb
  · simp at hb; omega
  · split at hb
    · simp at hb
      rcases hb with h | h <;> omega
    · split at hb
      · simp at hb
        rcases hb with h | h | h <;> omega
      · simp at hb
        rcases hb with h | h | h | h <;> omega

theorem utf8DecodeChar_encode (c : Nat) (hc : c < 1114112) (rest : List Nat) :
    utf8DecodeChar (utf8EncodeChar c ++ rest) = some (c, rest) := by
  unfold utf8EncodeChar
  split
  · unfold utf8DecodeChar
    simp
    omega
  · split
    · unfold utf8DecodeChar
      have h1 : ¬ (192 + c / 64 < 128) := by omega
      have h2 : ¬ (192 + c / 64 < 192) := by omega
      have h3 : 192 + c / 64 < 224 := by omega
      simp [h1, h2, h3]
      omega
    · split
      · unfold utf8DecodeChar
        have h1 : ¬ (224 + c / 4096 < 128) := by omega
        have h2 : ¬ (224 + c / 4096 < 192) := by omega
        have h3 : ¬ (224 + c / 4096 < 224) := by omega
        have h4 : 224 + c / 4096 < 240 := by omega
        simp [h1, h2, h3, h4]
        omega
      · unfold utf8DecodeChar
        have h1 : ¬ (240 + c / 262144 < 128) := by omega
        have h2 : ¬ (240 + c / 262144 < 192) := by omega
        have h3 : ¬ (240 + c / 262144 < 224) := by omega
        have h4 : ¬ (240 + c / 262144 < 240) := by omega
        have h5 : 240 + c / 262144 < 248 := by omega
        simp [h1, h2, h3, h4, h5]
        omega

/-! ## `JSON.stringify`, composed with UTF-8 encoding to bytes

Models `Buffer.from(JSON.stringify(data), "utf8")` from `encode`
(relay.ts line 9): the value is serialized without extra whitespace, with
`"`, `\` and control characters escaped, and the result UTF-8 encoded.
-/

/-- ASCII code of a lowercase hexadecimal digit. -/
def hexDigitChar (n : Nat) : Nat := if n < 10 then 48 + n else 87 + n

/-- The bytes `JSON.stringify` emits for one character of a string. -/
def escapeChar (c : Nat) : List Nat :=
  if c = 34 then [92, 34]
  else if c = 92 then [92, 92]
  else if c = 8 then [92, 98]
  else if c = 9 then [92, 116]
  else if c = 10 then [92, 110]
  else if c = 12 then [92, 102]
  else if c = 13 then [92, 114]
  else if c < 32 then [92, 117, 48, 48, hexDigitChar (c / 16), hexDigitChar (c % 16)]
  else utf8EncodeChar c

/-- The bytes of a serialized JSON string, including the quotes. -/
def stringifyStr (s : List Nat) : List Nat :=
  34 :: ((s.map escapeChar).flatten ++ [34])

/-- Decimal digits (ASCII) of a natural number, most significant first. -/
def natToDigits (n : Nat) : List Nat :=
  if h : n < 10 then [48 + n] else natToDigits (n / 10) ++ [48 + n % 10]
termination_by n
decreasing_by exact Nat.div_lt_self (by omega) (by omega)

/-- The bytes `JSON.stringify` emits for an integer. -/
def intToBytes (n : Int) : List Nat :=
  if n < 0 then 45 :: natToDigits n.natAbs else natToDigits n.natAbs

mutual

/-- `JSON.stringify`, producing UTF-8 bytes. -/
def Json.stringify : Json → List Nat
  | .null => [110, 117, 108, 108]
  | .bool true => [116, 114, 117, 101]
  | .bool false => [102, 97, 108, 115, 101]
  | .num n => intToBytes n
  | .str s => stringifyStr s
  | .arr l => 91 :: (Json.stringifyElems l ++ [93])
  | .obj l => 123 :: (Json.stringifyFields l ++ [125])

def Json.stringifyElems : List Json → List Nat
  | [] => []
  | [j] => j.stringify
  | j :: rest => j.stringify ++ 44 :: Json.stringifyElems rest

def Json.stringifyFields : List (List Nat × Json) → List Nat
  | [] => []
  | [(k, v)] => stringifyStr k ++ 58 :: v.stringify
  | (k, v) :: rest => stringifyStr k ++ 58 :: v.stringify ++ 44 :: Json.stringifyFields rest

end

/-! ## `JSON.parse`, composed with UTF-8 decoding from bytes

Models `JSON.parse(buffer.toString("utf8"))` from `decode`
(relay.ts lines 29 and 33) as a recursive-descent parser over the byte
list, restricted to the integer-numbered JSON fragment this protocol
exchanges (no fraction/exponent forms, no surrogate-pair `\u` escapes).
A `none` result stands for `JSON.parse` throwing a `SyntaxError`.
-/

/-- JSON insignificant whitespace. -/
def isWs (c : Nat) : Bool := c = 32 || c = 9 || c = 10 || c = 13

def skipWs : List Nat → List Nat
  | [] => []
  | c :: r => if isWs c then skipWs r else c :: r

/-- Consume an expected literal token, returning the remaining input. -/
def dropToken : List Nat → List Nat → Option (List Nat)
  | [], input => some input
  | p :: ps, c :: cs => if c = p then dropToken ps cs else none
  | _ :: _, [] => none

def isDigit (c : Nat) : Bool := 48 ≤ c && c ≤ 57

/-- Greedily consume decimal digits, accumulating their value. -/
def parseDigits (acc : Nat) : List Nat → Nat × List Nat
  | [] => (acc, [])
  | c :: cs => if isDigit c then parseDigits (acc * 10 + (c - 48)) cs else (acc, c :: cs)

/-- Parse an unsigned decimal integer (at least one digit). -/
def parseNatNum : List Nat → Option (Nat × List Nat)
  | [] => none
  | c :: cs => if isDigit c then some (parseDigits (c - 48) cs) else none

/-- Parse a JSON integer, with optional leading minus sign. -/
def parseNum (input : List Nat) : Option (Int × List Nat) :=
  match input with
  | [] => none
  | c :: rest =>
    if c = 45 then
      match parseNatNum rest with
      | some (n, r) => some (-(n : Int), r)
      | none => none
    else
      match parseNatNum (c :: rest) with
      | some (n, r) => some ((n : Int), r)
      | none => none

/-- Value of a hexadecimal digit character. -/
def hexVal (c : Nat) : Option Nat :=
  if 48 ≤ c ∧ c ≤ 57 then some (c - 48)
  else if 97 ≤ c ∧ c ≤ 102 then some (c - 87)
  else if 65 ≤ c ∧ c ≤ 70 then some (c - 55)
  else none

/-- Character denoted by a single-letter JSON escape. -/
def escCode (e : Nat) : Option Nat :=
  if e = 34 then some 34
  else if e = 92 then some 92
  else if e = 47 then some 47
  else if e = 98 then some 8
  else if e = 116 then some 9
  else if e = 110 then some 10
  else if e = 102 then some 12
  else if e = 114 then some 13
  else none

/-- Parse the body of a JSON string after the opening quote, returning the
scalar values and the input after the closing quote. -/
def parseStrBody : Nat → List Nat → Option (List Nat × List Nat)
  | 0, _ => none
  | _ + 1, [] => none
  | fuel + 1, b :: rest =>
    if b = 34 then some ([], rest)
    else if b = 92 then
      match rest with
      | [] => none
      | e :: rest' =>
        if e = 117 then
          match rest' with
          | h1 :: h2 :: h3 :: h4 :: rest'' =>
            match hexVal h1, hexVal h2, hexVal h3, hexVal h4 with
            | some a, some b1, some c1, some d =>
              (parseStrBody fuel rest'').map
                (fun p => ((((a * 16 + b1) * 16 + c1) * 16 + d) :: p.1, p.2))
            | _, _, _, _ => none
          | _ => none
        else
          match escCode e with
          | some c => (parseStrBody fuel rest').map (fun p => (c :: p.1, p.2))
          | none => none
    else if b < 128 then (parseStrBody fuel rest).map (fun p => (b :: p.1, p.2))
    else
      match utf8DecodeChar (b :: rest) with
      | some (c, r) => (parseStrBody fuel r).map (fun p => (c :: p.1, p.2))
      | none => none

mutual

/-- Parse one JSON value (after skipping leading whitespace). -/
def parseVal : Nat → List Nat → Option (Json × List Nat)
  | 0, _ => none
  | fuel + 1, input =>
    match skipWs input with
    | [] => none
    | c :: r =>
      if c = 110 then (dropToken [117, 108, 108] r).map (fun r' => (Json.null, r'))
      else if c = 116 then (dropToken [114, 117, 101] r).map (fun r' => (Json.bool true, r'))
      else if c = 102 then
        (dropToken [97, 108, 115, 101] r).map (fun r' => (Json.bool false, r'))
      else if c = 34 then
        (parseStrBody (r.length + 1) r).map (fun p => (Json.str p.1, p.2))
      else if c = 91 then
        match skipWs r with
        | [] => none
        | d :: r' =>
          if d = 93 then some (Json.arr [], r')
          else (parseElems fuel (d :: r')).map (fun p => (Json.arr p.1, p.2))
      else if c = 123 then
        match skipWs r with
        | [] => none
        | d :: r' =>
          if d = 125 then some (Json.obj [], r')
          else (parseFields fuel (d :: r')).map (fun p => (Json.obj p.1, p.2))
      else (parseNum (c :: r)).map (fun p => (Json.num p.1, p.2))

/-- Parse the comma-separated elements of a nonempty array, through the
closing bracket. -/
def parseElems : Nat → List Nat → Option (List Json × List Nat)
  | 0, _ => none
  | fuel + 1, input =>
    match parseVal fuel input with
    | none => none
    | some (j, r) =>
      match skipWs r with
      | [] => none
      | d :: r' =>
        if d = 44 then (parseElems fuel (skipWs r')).map (fun p => (j :: p.1, p.2))
        else if d = 93 then some ([j], r')
        else none

/-- Parse the comma-separated members of a nonempty object, through the
closing brace. -/
def parseFields : Nat → List Nat → Option (List (List Nat × Json) × List Nat)
  | 0, _ => none
  | fuel + 1, input =>
    match input with
    | 34 :: r =>
      match parseStrBody (r.length + 1) r with
      | none => none
      | some (k, r1) =>
        match skipWs r1 with
        | [] => none
        | d2 :: r2 =>
          if d2 = 58 then
            match parseVal fuel r2 with
            | none => none
            | some (v, r3) =>
              match skipWs r3 with
              | [] => none
              | d4 :: r4 =>
                if d4 = 44 then
                  (parseFields fuel (skipWs r4)).map (fun p => ((k, v) :: p.1, p.2))
                else if d4 = 125 then some ([(k, v)], r4)
                else none
          else none
    | _ => none

end

/-- `JSON.parse` over UTF-8 bytes: parse one value and require that only
whitespace follows.  `none` models a thrown `SyntaxError`. -/
def jsonParse (input : List Nat) : Option Json :=
  match parseVal (input.length + 1) input with
  | some (j, rest) => if skipWs rest = [] then some j else none
  | none => none

/-! ## Base64 (`buffer.toString("base64")` / `Buffer.from(·, "base64")`) -/

/-- ASCII code of the base64 alphabet character for a 6-bit value. -/
def b64Char (n : Nat) : Nat :=
  if n < 26 then 65 + n
  else if n < 52 then 71 + n
  else if n < 62 then n - 4
  else if n = 62 then 43
  else 47

/-- Standard padded base64 encoding of a byte list. -/
def b64Encode : List Nat → List Nat
  | [] => []
  | [a] => [b64Char (a / 4), b64Char ((a % 4) * 16), 61, 61]
  | [a, b] => [b64Char (a / 4), b64Char ((a % 4) * 16 + b / 16), b64Char ((b % 16) * 4), 61]
  | a :: b :: c :: rest =>
    b64Char (a / 4) :: b64Char ((a % 4) * 16 + b / 16) ::
      b64Char ((b % 16) * 4 + c / 64) :: b64Char (c % 64) :: b64Encode rest

/-- 6-bit value of a base64 alphabet character; `none` for every other
character (Node's decoder skips such characters, including `=`). -/
def b64Val (c : Nat) : Option Nat :=
  if 65 ≤ c ∧ c ≤ 90 then some (c - 65)
  else if 97 ≤ c ∧ c ≤ 122 then some (c - 71)
  else if 48 ≤ c ∧ c ≤ 57 then some (c + 4)
  else if c = 43 then some 62
  else if c = 47 then some 63
  else none

/-- Reassemble bytes from 6-bit values, four at a time; a trailing group
of two or three values yields one or two bytes, a lone value is dropped
(Node `Buffer.from(·, "base64")` semantics). -/
def b64Quads : List Nat → List Nat
  | a :: b :: c :: d :: rest =>
    (a * 4 + b / 16) :: ((b % 16) * 16 + c / 4) :: ((c % 4) * 64 + d) :: b64Quads rest
  | [a, b, c] => [a * 4 + b / 16, (b % 16) * 16 + c / 4]
  | [a, b] => [a * 4 + b / 16]
  | _ => []

/-- Node's permissive base64 decoder: non-alphabet characters are ignored. -/
def b64Decode (s : List Nat) : List Nat := b64Quads (s.filterMap b64Val)

/-! ## XOR obfuscation (`xor.ts`, `xorBuffer`) -/

/-- `xorBuffer(data, key)` from xor.ts: each byte of `data` is XORed with
the byte of the UTF-8 encoded key at the index modulo the key length.
The key is a JS string, given as its list of Unicode scalar values. -/
def xorBuffer (data : List Nat) (key : List Nat) : List Nat :=
  let keyBuf := utf8Encode key
  (List.range data.length).map
    (fun i => ((data.getD i 0) ^^^ (keyBuf.getD (i % keyBuf.length) 0)) % 256)

/-! ## `encode` / `decode` (relay.ts lines 8-34) -/

/-- The `string | Buffer` argument of `decode`: a JS string is a list of
scalar values, a `Buffer` a list of bytes. -/
inductive WireData where
  | text (s : List Nat)
  | buf (b : List Nat)

/-- Result of `decode`: a parsed JSON value on the text path, raw bytes on
the binary path. -/
inductive Decoded where
  | json (j : Json)
  | bin (b : List Nat)

/-- `encode(data, encryptionKey)`: serialize to UTF-8 JSON, XOR when the
key is non-null and non-empty, then base64 (relay.ts lines 8-17).
The result is the base64 text as a list of character codes. -/
def encode (data : Json) (encryptionKey : Option (List Nat)) : List Nat :=
  let jsonBuf := data.stringify
  match encryptionKey with
  | none => b64Encode jsonBuf
  | some k =>
    if k.length = 0 then b64Encode jsonBuf
    else b64Encode (xorBuffer jsonBuf k)

/-- `decode(data, encryptionKey, isBinary)` (relay.ts lines 19-34).
`Except.error` models an uncaught `JSON.parse` exception. -/
def decode (data : WireData) (encryptionKey : Option (List Nat)) (isBinary : Bool) :
    Except String Decoded :=
  let raw : List Nat :=
    match isBinary, data with
    | true, .buf b => b
    | true, .text s => utf8Encode s
    | false, .text s => b64Decode s
    | false, .buf b => b
  let finish : List Nat → Except String Decoded := fun bytes =>
    match isBinary with
    | true => .ok (.bin bytes)
    | false =>
      match jsonParse bytes with
      | some j => .ok (.json j)
      | none => .error "SyntaxError: JSON.parse"
  match encryptionKey with
  | none => finish raw
  | some k =>
    if k.length = 0 then finish raw
    else finish (xorBuffer raw k)

/-! ## Structural induction for nested `Json` -/

theorem Json.myInduction (P : Json → Prop)
    (hnull : P .null) (hbool : ∀ b, P (.bool b)) (hnum : ∀ n, P (.num n))
    (hstr : ∀ s, P (.str s))
    (harr : ∀ l, (∀ j ∈ l, P j) → P (.arr l))
    (hobj : ∀ l, (∀ k v, (k, v) ∈ l → P v) → P (.obj l)) :
    ∀ j, P j := by
  have H : ∀ n j, sizeOf j ≤ n → P j := by
    intro n
    induction n with
    | zero => intro j h; cases j <;> simp_arith at h
    | succ n ih =>
      intro j h
      cases j with
      | null => exact hnull
      | bool b => exact hbool b
      | num m => exact hnum m
      | str s => exact hstr s
      | arr l =>
        refine harr l (fun j' hj' => ih j' ?_)
        have := List.sizeOf_lt_of_mem hj'
        simp only [Json.arr.sizeOf_spec] at h
        omega
      | obj l =>
        refine hobj l (fun k v hkv => ih v ?_)
        have h1 := List.sizeOf_lt_of_mem hkv
        have h2 : sizeOf (k, v) = 1 + sizeOf k + sizeOf v := rfl
        simp only [Json.obj.sizeOf_spec] at h
        omega
  exact fun j => H (sizeOf j) j le_rfl

/-! ## UTF-8 lemmas -/

theorem utf8Encode_bytes_lt (s : List Nat) (hs : ∀ c ∈ s, c < 1114112) :
    ∀ b ∈ utf8Encode s, b < 256 := by
  intro b hb
  simp only [utf8Encode, List.mem_flatten, List.mem_map] at hb
  obtain ⟨l, ⟨c, hc, rfl⟩, hbl⟩ := hb
  exact utf8EncodeChar_bytes_lt c (hs c hc) b hbl

/-! ## Digit lemmas -/

theorem natToDigits_ne_nil (n : Nat) : natToDigits n ≠ [] := by
  unfold natToDigits
  split <;> simp

theorem natToDigits_digits (n : Nat) : ∀ d ∈ natToDigits n, 48 ≤ d ∧ d ≤ 57 := by
  induction n using natToDigits.induct with
  | case1 n h =>
    intro d hd
    unfold natToDigits at hd
    simp [h] at hd
    omega
  | case2 n h ih =>
    intro d hd
    unfold natToDigits at hd
    simp [h] at hd
    rcases hd with hd | hd
    · exact ih d hd
    · omega

theorem natToDigits_head (n : Nat) : ∃ d t, natToDigits n = d :: t ∧ 48 ≤ d ∧ d ≤ 57 := by
  match h : natToDigits n with
  | [] => exact absurd h (natToDigits_ne_nil n)
  | d :: t =>
    have := natToDigits_digits n d (by rw [h]; exact List.mem_cons_self d t)
    exact ⟨d, t, rfl, this.1, this.2⟩

/-- Whether the input begins with a decimal digit. -/
def digitStart : List Nat → Bool
  | [] => false
  | c :: _ => isDigit c

theorem parseDigits_stop (acc : Nat) (l : List Nat) (h : digitStart l = false) :
    parseDigits acc l = (acc, l) := by
  cases l with
  | nil => rfl
  | cons c cs =>
    simp only [digitStart] at h
    simp [parseDigits, h]

/-- Accumulated value of a run of digit characters. -/
def digitsVal (ds : List Nat) (acc : Nat) : Nat :=
  ds.foldl (fun a d => a * 10 + (d - 48)) acc

theorem parseDigits_run (ds : List Nat) (hds : ∀ d ∈ ds, isDigit d = true) :
    ∀ acc rest, digitStart rest = false →
      parseDigits acc (ds ++ rest) = (digitsVal ds acc, rest) := by
  induction ds with
  | nil => intro acc rest h; exact parseDigits_stop acc rest h
  | cons d ds ih =>
    intro acc rest h
    have hd := hds d (List.mem_cons_self d ds)
    simp only [List.cons_append, parseDigits, hd, if_true]
    exact ih (fun x hx => hds x (List.mem_cons_of_mem d hx)) _ rest h

theorem digitsVal_natToDigits (n : Nat) :
    ∀ acc, digitsVal (natToDigits n) acc = acc * 10 ^ (natToDigits n).length + n := by
  induction n using natToDigits.induct with
  | case1 n h =>
    intro acc
    unfold natToDigits
    simp [h, digitsVal]
  | case2 n h ih =>
    intro acc
    unfold natToDigits
    simp only [h, dite_false, dif_neg]
    rw [digitsVal, List.foldl_append]
    have h1 : List.foldl (fun a d => a * 10 + (d - 48)) acc (natToDigits (n / 10)) =
        acc * 10 ^ (natToDigits (n / 10)).length + n / 10 := ih acc
    rw [h1]
    simp only [List.foldl_cons, List.foldl_nil, List.length_append, List.length_cons,
      List.length_nil]
    have h2 : (48 + n % 10) - 48 = n % 10 := by omega
    rw [h2, pow_succ]
    have h3 := Nat.div_add_mod n 10
    set K := 10 ^ (natToDigits (n / 10)).length with hK
    ring_nf
    omega

theorem parseNatNum_natToDigits (n : Nat) (rest : List Nat) (h : digitStart rest = false) :
    parseNatNum (natToDigits n ++ rest) = some (n, rest) := by
  obtain ⟨d, t, hdt, hd1, hd2⟩ := natToDigits_head n
  have hdig : isDigit d = true := by simp [isDigit]; omega
  have hall : ∀ x ∈ t, isDigit x = true := by
    intro x hx
    have := natToDigits_digits n x (by rw [hdt]; exact List.mem_cons_of_mem d hx)
    simp [isDigit]; omega
  rw [hdt]
  simp only [List.cons_append, parseNatNum, hdig, if_true]
  rw [parseDigits_run t hall (d - 48) rest h]
  have hv : digitsVal t (d - 48) = n := by
    have h1 := digitsVal_natToDigits n 0
    rw [hdt] at h1
    simpa [digitsVal] using h1
  rw [hv]

/-! ## String-body lemmas -/

theorem hexVal_hexDigitChar (m : Nat) (h : m < 16) : hexVal (hexDigitChar m) = some m := by
  unfold hexVal hexDigitChar
  split
  · rw [if_pos (by omega)]
    simp
  · rw [if_neg (by omega), if_pos (by omega)]
    simp

theorem utf8EncodeChar_head (c : Nat) (h1 : 128 ≤ c) :
    ∃ b bs, utf8EncodeChar c = b :: bs ∧ 192 ≤ b := by
  unfold utf8EncodeChar
  rw [if_neg (by omega)]
  split
  · exact ⟨_, _, rfl, by omega⟩
  · split
    · exact ⟨_, _, rfl, by omega⟩
    · exact ⟨_, _, rfl, by omega⟩

theorem escapeChar_ne_nil (c : Nat) : escapeChar c ≠ [] := by
  unfold escapeChar
  repeat' split
  all_goals simp_all
  exact utf8EncodeChar_ne_nil c

/-- One step of the string parser: each serialized character is read back. -/
theorem parseStrBody_step (c : Nat) (hc : c < 1114112) (f : Nat) (tail : List Nat) :
    parseStrBody (f + 1) (escapeChar c ++ tail) =
      (parseStrBody f tail).map (fun p => (c :: p.1, p.2)) := by
  by_cases h34 : c = 34
  · subst h34; simp [escapeChar, parseStrBody, escCode]
  by_cases h92 : c = 92
  · subst h92; simp [escapeChar, parseStrBody, escCode]
  by_cases h8 : c = 8
  · subst h8; simp [escapeChar, parseStrBody, escCode]
  by_cases h9 : c = 9
  · subst h9; simp [escapeChar, parseStrBody, escCode]
  by_cases h10 : c = 10
  · subst h10; simp [escapeChar, parseStrBody, escCode]
  by_cases h12 : c = 12
  · subst h12; simp [escapeChar, parseStrBody, escCode]
  by_cases h13 : c = 13
  · subst h13; simp [escapeChar, parseStrBody, escCode]
  by_cases hctl : c < 32
  · have hesc : escapeChar c =
        [92, 117, 48, 48, hexDigitChar (c / 16), hexDigitChar (c % 16)] := by
      unfold escapeChar
      rw [if_neg h34, if_neg h92, if_neg h8, if_neg h9, if_neg h10, if_neg h12, if_neg h13,
        if_pos hctl]
    rw [hesc]
    simp only [List.cons_append, List.nil_append]
    generalize hres : parseStrBody f tail = res
    unfold parseStrBody
    rw [if_neg (by omega), if_pos rfl]
    simp only [if_pos rfl, if_true]
    rw [hexVal_hexDigitChar _ (by omega), hexVal_hexDigitChar _ (by omega)]
    have h48 : hexVal 48 = some 0 := by decide
    rw [h48]
    dsimp only
    rw [hres]
    have hval : ((0 * 16 + 0) * 16 + c / 16) * 16 + c % 16 = c := by omega
    rw [hval]
  · have hesc : escapeChar c = utf8EncodeChar c := by
      unfold escapeChar
      rw [if_neg h34, if_neg h92, if_neg h8, if_neg h9, if_neg h10, if_neg h12, if_neg h13,
        if_neg hctl]
    rw [hesc]
    by_cases hlo : c < 128
    · have henc : utf8EncodeChar c = [c] := by unfold utf8EncodeChar; rw [if_pos hlo]
      rw [henc]
      simp only [List.cons_append, List.nil_append]
      generalize hres : parseStrBody f tail = res
      unfold parseStrBody
      rw [if_neg h34, if_neg h92, if_pos hlo, hres]
    · obtain ⟨b, bs, hbbs, hb⟩ := utf8EncodeChar_head c (by omega)
      have hdec : utf8DecodeChar (b :: (bs ++ tail)) = some (c, tail) := by
        have := utf8DecodeChar_encode c hc tail
        rw [hbbs] at this
        simpa using this
      rw [hbbs]
      simp only [List.cons_append]
      generalize hres : parseStrBody f tail = res
      unfold parseStrBody
      rw [if_neg (by omega), if_neg (by omega), if_neg (by omega), hdec]
      dsimp only
      rw [hres]

theorem escBody_length_ge (s : List Nat) : s.length ≤ ((s.map escapeChar).flatten).length := by
  induction s with
  | nil => simp
  | cons c cs ih =>
    simp only [List.map_cons, List.flatten_cons, List.length_append, List.length_cons]
    have : 1 ≤ (escapeChar c).length := by
      cases h : escapeChar c with
      | nil => exact absurd h (escapeChar_ne_nil c)
      | cons x xs => simp
    omega

/-- The string parser inverts `JSON.stringify`'s string serialization. -/
theorem parseStrBody_escBody (s : List Nat) :
    ∀ fuel rest, s.length + 1 ≤ fuel → (∀ c ∈ s, c < 1114112) →
      parseStrBody fuel ((s.map escapeChar).flatten ++ 34 :: rest) = some (s, rest) := by
  induction s with
  | nil =>
    intro fuel rest hfuel _
    obtain ⟨f, rfl⟩ : ∃ f, fuel = f + 1 := ⟨fuel - 1, by omega⟩
    simp [parseStrBody]
  | cons c cs ih =>
    intro fuel rest hfuel hok
    obtain ⟨f, rfl⟩ : ∃ f, fuel = f + 1 := ⟨fuel - 1, by omega⟩
    simp only [List.map_cons, List.flatten_cons, List.append_assoc]
    rw [parseStrBody_step c (hok c (List.mem_cons_self c cs)) f _]
    rw [ih f rest (by simp at hfuel ⊢; omega)
      (fun x hx => hok x (List.mem_cons_of_mem c hx))]
    rfl

/-! ## Fuel accounting for the parser -/

mutual

/-- Fuel sufficient for `parseVal` to parse this value's serialization. -/
def Json.fuelNeed : Json → Nat
  | .arr l => 1 + Json.fuelNeedElems l
  | .obj l => 1 + Json.fuelNeedFields l
  | _ => 1

def Json.fuelNeedElems : List Json → Nat
  | [] => 0
  | j :: rest => 1 + j.fuelNeed + Json.fuelNeedElems rest

def Json.fuelNeedFields : List (List Nat × Json) → Nat
  | [] => 0
  | (_, v) :: rest => 1 + v.fuelNeed + Json.fuelNeedFields rest

end

theorem dropToken_append (p r : List Nat) : dropToken p (p ++ r) = some r := by
  induction p with
  | nil => rfl
  | cons x xs ih => simp [dropToken, ih]

theorem skipWs_not_ws (c : Nat) (t : List Nat) (h : isWs c = false) :
    skipWs (c :: t) = c :: t := by
  simp [skipWs, h]

/-- The first byte of a serialized JSON value: never whitespace and never
a closing bracket, brace, comma or colon. -/
def headOk : List Nat → Prop
  | [] => False
  | c :: _ => isWs c = false ∧ c ≠ 93 ∧ c ≠ 125 ∧ c ≠ 44 ∧ c ≠ 58

theorem stringify_headOk (j : Json) : headOk j.stringify := by
  cases j with
  | null => exact ⟨by decide, by decide, by decide, by decide, by decide⟩
  | bool b =>
    cases b
    · exact ⟨by decide, by decide, by decide, by decide, by decide⟩
    · exact ⟨by decide, by decide, by decide, by decide, by decide⟩
  | num n =>
    show headOk (intToBytes n)
    unfold intToBytes
    split
    · exact ⟨by decide, by decide, by decide, by decide, by decide⟩
    · obtain ⟨d, t, hdt, h1, h2⟩ := natToDigits_head n.natAbs
      rw [hdt]
      refine ⟨by simp [isWs]; omega, by omega, by omega, by omega, by omega⟩
  | str s => exact ⟨by decide, by decide, by decide, by decide, by decide⟩
  | arr l => exact ⟨by decide, by decide, by decide, by decide, by decide⟩
  | obj l => exact ⟨by decide, by decide, by decide, by decide, by decide⟩

theorem stringify_ne_nil (j : Json) : j.stringify ≠ [] := by
  have := stringify_headOk j
  cases h : j.stringify with
  | nil => rw [h] at this; exact absurd this not_false
  | cons c t => simp

theorem skipWs_stringify_append (j : Json) (rest : List Nat) :
    skipWs (j.stringify ++ rest) = j.stringify ++ rest := by
  have hh := stringify_headOk j
  cases h : j.stringify with
  | nil => rw [h] at hh; exact absurd hh not_false
  | cons c t =>
    rw [h] at hh
    simp only [List.cons_append]
    exact skipWs_not_ws c (t ++ rest) hh.1

/-- The continuations a serialized value is followed by inside a document:
end of input, a comma, or a closing bracket or brace. -/
def delimOk : List Nat → Bool
  | [] => true
  | c :: _ => c = 44 || c = 93 || c = 125

theorem delimOk_not_digit (rest : List Nat) (h : delimOk rest = true) :
    digitStart rest = false := by
  cases rest with
  | nil => rfl
  | cons c t =>
    simp [delimOk] at h
    simp [digitStart, isDigit]
    omega

theorem headOk_append (xs ys : List Nat) (h : headOk xs) : headOk (xs ++ ys) := by
  cases xs with
  | nil => exact absurd h not_false
  | cons c t => exact h

theorem headOk_skipWs (l : List Nat) (h : headOk l) : skipWs l = l := by
  cases l with
  | nil => rfl
  | cons c t => exact skipWs_not_ws c t h.1

theorem scalarOk_lt (c : Nat) (h : scalarOk c = true) : c < 1114112 := by
  simp [scalarOk] at h
  exact h.1

theorem all_scalarOk_lt (s : List Nat) (h : s.all scalarOk = true) :
    ∀ c ∈ s, c < 1114112 := by
  intro c hc
  exact scalarOk_lt c (by simpa using List.all_eq_true.mp h c hc)

/-! ## Per-constructor parsing of serialized values -/

theorem parseVal_null_stringify (f : Nat) (rest : List Nat) :
    parseVal (f + 1) (Json.null.stringify ++ rest) = some (Json.null, rest) := by
  show parseVal (f + 1) ([110, 117, 108, 108] ++ rest) = some (Json.null, rest)
  simp only [List.cons_append, List.nil_append]
  unfold parseVal
  rw [skipWs_not_ws 110 _ (by decide)]
  simp only [if_pos rfl]
  have : dropToken [117, 108, 108] (117 :: 108 :: 108 :: rest) = some rest :=
    dropToken_append [117, 108, 108] rest
  rw [this]
  rfl

theorem parseVal_bool_stringify (b : Bool) (f : Nat) (rest : List Nat) :
    parseVal (f + 1) ((Json.bool b).stringify ++ rest) = some (Json.bool b, rest) := by
  cases b
  · show parseVal (f + 1) ([102, 97, 108, 115, 101] ++ rest) = some (Json.bool false, rest)
    simp only [List.cons_append, List.nil_append]
    unfold parseVal
    rw [skipWs_not_ws 102 _ (by decide)]
    dsimp only
    rw [if_neg (by decide), if_neg (by decide), if_pos rfl]
    have : dropToken [97, 108, 115, 101] (97 :: 108 :: 115 :: 101 :: rest) = some rest :=
      dropToken_append [97, 108, 115, 101] rest
    rw [this]
    rfl
  · show parseVal (f + 1) ([116, 114, 117, 101] ++ rest) = some (Json.bool true, rest)
    simp only [List.cons_append, List.nil_append]
    unfold parseVal
    rw [skipWs_not_ws 116 _ (by decide)]
    dsimp only
    rw [if_neg (by decide), if_pos rfl]
    have : dropToken [114, 117, 101] (114 :: 117 :: 101 :: rest) = some rest :=
      dropToken_append [114, 117, 101] rest
    rw [this]
    rfl

theorem parseVal_num_stringify (n : Int) (f : Nat) (rest : List Nat)
    (hdelim : delimOk rest = true) :
    parseVal (f + 1) ((Json.num n).stringify ++ rest) = some (Json.num n, rest) := by
  have hstop := delimOk_not_digit rest hdelim
  show parseVal (f + 1) (intToBytes n ++ rest) = some (Json.num n, rest)
  unfold intToBytes
  split
  · rename_i hneg
    simp only [List.cons_append]
    unfold parseVal
    rw [skipWs_not_ws 45 _ (by decide)]
    dsimp only
    rw [if_neg (by decide), if_neg (by decide), if_neg (by decide), if_neg (by decide),
      if_neg (by decide), if_neg (by decide)]
    unfold parseNum
    dsimp only
    rw [if_pos rfl]
    rw [parseNatNum_natToDigits n.natAbs rest hstop]
    have : -((n.natAbs : Int)) = n := by omega
    simp [this]
    rw [abs_of_neg hneg, neg_neg]
  · rename_i hpos
    obtain ⟨d, t, hdt, hd1, hd2⟩ := natToDigits_head n.natAbs
    rw [hdt]
    simp only [List.cons_append]
    unfold parseVal
    rw [skipWs_not_ws d _ (by simp [isWs]; omega)]
    dsimp only
    rw [if_neg (by omega), if_neg (by omega), if_neg (by omega), if_neg (by omega),
      if_neg (by omega), if_neg (by omega)]
    unfold parseNum
    dsimp only
    rw [if_neg (by omega)]
    have hrw : d :: (t ++ rest) = natToDigits n.natAbs ++ rest := by rw [hdt]; rfl
    rw [hrw, parseNatNum_natToDigits n.natAbs rest hstop]
    have : ((n.natAbs : Int)) = n := by omega
    simp [this]

theorem parseVal_str_stringify (s : List Nat) (hs : ∀ c ∈ s, c < 1114112)
    (f : Nat) (rest : List Nat) :
    parseVal (f + 1) ((Json.str s).stringify ++ rest) = some (Json.str s, rest) := by
  show parseVal (f + 1) (stringifyStr s ++ rest) = some (Json.str s, rest)
  unfold stringifyStr
  simp only [List.cons_append, List.append_assoc, List.nil_append]
  unfold parseVal
  rw [skipWs_not_ws 34 _ (by decide)]
  dsimp only
  rw [if_neg (by decide), if_neg (by decide), if_neg (by decide), if_pos rfl]
  have hlen : s.length + 1 ≤ ((s.map escapeChar).flatten ++ 34 :: rest).length + 1 := by
    have := escBody_length_ge s
    simp only [List.length_append, List.length_cons]
    omega
  rw [parseStrBody_escBody s _ rest hlen hs]
  rfl

theorem headOk_cons (l : List Nat) (h : headOk l) :
    ∃ c t, l = c :: t ∧ isWs c = false ∧ c ≠ 93 ∧ c ≠ 125 ∧ c ≠ 44 ∧ c ≠ 58 := by
  cases l with
  | nil => exact absurd h not_false
  | cons c t => exact ⟨c, t, rfl, h.1, h.2.1, h.2.2.1, h.2.2.2.1, h.2.2.2.2⟩

theorem stringifyElems_headOk (l : List Json) (h : l ≠ []) :
    headOk (Json.stringifyElems l) := by
  cases l with
  | nil => exact absurd rfl h
  | cons j l0 =>
    cases l0 with
    | nil => exact stringify_headOk j
    | cons j2 l2 =>
      rw [show Json.stringifyElems (j :: j2 :: l2) =
        j.stringify ++ 44 :: Json.stringifyElems (j2 :: l2) from rfl]
      exact headOk_append _ _ (stringify_headOk j)

theorem stringifyFields_cons_head (k : List Nat) (v : Json) (l : List (List Nat × Json)) :
    ∃ t, Json.stringifyFields ((k, v) :: l) = 34 :: t := by
  cases l with
  | nil => exact ⟨_, rfl⟩
  | cons p l2 => exact ⟨_, rfl⟩

theorem wfList_mem (l : List Json) (h : Json.wfList l = true) :
    ∀ j ∈ l, Json.wf j = true := by
  induction l with
  | nil => intro j hj; cases hj
  | cons x xs ih =>
    intro j hj
    rw [Json.wfList, Bool.and_eq_true] at h
    rcases List.mem_cons.mp hj with rfl | hj
    · exact h.1
    · exact ih h.2 j hj

theorem wfFields_mem (l : List (List Nat × Json)) (h : Json.wfFields l = true) :
    ∀ k v, (k, v) ∈ l → k.all scalarOk = true ∧ Json.wf v = true := by
  induction l with
  | nil => intro k v hkv; cases hkv
  | cons x xs ih =>
    intro k v hkv
    obtain ⟨k0, v0⟩ := x
    rw [Json.wfFields, Bool.and_eq_true, Bool.and_eq_true] at h
    rcases List.mem_cons.mp hkv with heq | hkv
    · cases heq
      exact ⟨h.1.1, h.1.2⟩
    · exact ih h.2 k v hkv

/-- Parsing the serialized elements of a nonempty array, given that each
element parses correctly. -/
theorem parseElems_stringify :
    ∀ (l : List Json),
      (∀ j ∈ l, ∀ fuel rest, j.fuelNeed ≤ fuel → delimOk rest = true →
        parseVal fuel (j.stringify ++ rest) = some (j, rest)) →
      l ≠ [] →
      ∀ fuel rest, Json.fuelNeedElems l ≤ fuel →
        parseElems fuel (Json.stringifyElems l ++ 93 :: rest) = some (l, rest) := by
  intro l
  induction l with
  | nil => intro _ hne; exact absurd rfl hne
  | cons j l0 ih =>
    intro hel _ fuel rest hfuel
    rw [show Json.fuelNeedElems (j :: l0) = 1 + j.fuelNeed + Json.fuelNeedElems l0
      from rfl] at hfuel
    obtain ⟨f, rfl⟩ : ∃ f, fuel = f + 1 := ⟨fuel - 1, by omega⟩
    cases l0 with
    | nil =>
      rw [show Json.stringifyElems [j] = j.stringify from rfl]
      unfold parseElems
      rw [hel j (List.mem_cons_self j []) f (93 :: rest) (by omega) (by rfl)]
      dsimp only
      rw [skipWs_not_ws 93 _ (by decide)]
      dsimp only
      rw [if_neg (by decide), if_pos rfl]
    | cons j2 l2 =>
      rw [show Json.stringifyElems (j :: j2 :: l2) =
        j.stringify ++ 44 :: Json.stringifyElems (j2 :: l2) from rfl]
      simp only [List.append_assoc, List.cons_append]
      unfold parseElems
      rw [hel j (List.mem_cons_self j (j2 :: l2)) f _ (by omega) (by rfl)]
      dsimp only
      rw [skipWs_not_ws 44 _ (by decide)]
      dsimp only
      rw [if_pos rfl]
      rw [headOk_skipWs _ (headOk_append _ _ (stringifyElems_headOk (j2 :: l2) (by simp)))]
      rw [ih (fun x hx => hel x (List.mem_cons_of_mem j hx)) (by simp) f rest (by omega)]
      rfl

/-- Parsing the serialized members of a nonempty object, given that each
member's key is well-formed and its value parses correctly. -/
theorem parseFields_stringify :
    ∀ (l : List (List Nat × Json)),
      (∀ k v, (k, v) ∈ l → (∀ c ∈ k, c < 1114112) ∧
        ∀ fuel rest, v.fuelNeed ≤ fuel → delimOk rest = true →
          parseVal fuel (v.stringify ++ rest) = some (v, rest)) →
      l ≠ [] →
      ∀ fuel rest, Json.fuelNeedFields l ≤ fuel →
        parseFields fuel (Json.stringifyFields l ++ 125 :: rest) = some (l, rest) := by
  intro l
  induction l with
  | nil => intro _ hne; exact absurd rfl hne
  | cons p l0 ih =>
    obtain ⟨k, v⟩ := p
    intro hfl _ fuel rest hfuel
    obtain ⟨hk, hv⟩ := hfl k v (List.mem_cons_self (k, v) l0)
    rw [show Json.fuelNeedFields ((k, v) :: l0) = 1 + v.fuelNeed + Json.fuelNeedFields l0
      from rfl] at hfuel
    obtain ⟨f, rfl⟩ : ∃ f, fuel = f + 1 := ⟨fuel - 1, by omega⟩
    cases l0 with
    | nil =>
      rw [show Json.stringifyFields [(k, v)] = stringifyStr k ++ 58 :: v.stringify from rfl]
      unfold stringifyStr
      simp only [List.cons_append, List.append_assoc, List.nil_append]
      unfold parseFields
      dsimp only
      have hlen : k.length + 1 ≤
          ((k.map escapeChar).flatten ++ 34 :: (58 :: (v.stringify ++ 125 :: rest))).length
            + 1 := by
        have := escBody_length_ge k
        simp only [List.length_append, List.length_cons]
        omega
      rw [parseStrBody_escBody k _ (58 :: (v.stringify ++ 125 :: rest)) hlen hk]
      dsimp only
      rw [skipWs_not_ws 58 _ (by decide)]
      dsimp only
      rw [if_pos rfl]
      rw [hv f (125 :: rest) (by omega) (by rfl)]
      dsimp only
      rw [skipWs_not_ws 125 _ (by decide)]
      dsimp only
      rw [if_neg (by decide), if_pos rfl]
    | cons p2 l2 =>
      rw [show Json.stringifyFields ((k, v) :: p2 :: l2) =
        stringifyStr k ++ 58 :: v.stringify ++ 44 :: Json.stringifyFields (p2 :: l2)
        from rfl]
      unfold stringifyStr
      simp only [List.cons_append, List.append_assoc, List.nil_append]
      unfold parseFields
      dsimp only
      have hlen : k.length + 1 ≤
          ((k.map escapeChar).flatten ++
            34 :: (58 :: (v.stringify ++
              44 :: (Json.stringifyFields (p2 :: l2) ++ 125 :: rest)))).length + 1 := by
        have := escBody_length_ge k
        simp only [List.length_append, List.length_cons]
        omega
      rw [parseStrBody_escBody k _
        (58 :: (v.stringify ++ 44 :: (Json.stringifyFields (p2 :: l2) ++ 125 :: rest)))
        hlen hk]
      dsimp only
      rw [skipWs_not_ws 58 _ (by decide)]
      dsimp only
      rw [if_pos rfl]
      rw [hv f (44 :: (Json.stringifyFields (p2 :: l2) ++ 125 :: rest)) (by omega) (by rfl)]
      dsimp only
      rw [skipWs_not_ws 44 _ (by decide)]
      dsimp only
      rw [if_pos rfl]
      obtain ⟨k2, v2⟩ := p2
      obtain ⟨t2, ht2⟩ := stringifyFields_cons_head k2 v2 l2
      rw [show skipWs (Json.stringifyFields ((k2, v2) :: l2) ++ 125 :: rest) =
          Json.stringifyFields ((k2, v2) :: l2) ++ 125 :: rest by
        rw [ht2]; exact skipWs_not_ws 34 _ (by decide)]
      rw [ih (fun x y hxy => hfl x y (List.mem_cons_of_mem (k, v) hxy)) (by simp) f rest
        (by omega)]
      rfl

/-- `parseVal` inverts `JSON.stringify` on well-formed values. -/
theorem parseVal_stringify (j : Json) : Json.wf j = true →
    ∀ fuel rest, j.fuelNeed ≤ fuel → delimOk rest = true →
      parseVal fuel (j.stringify ++ rest) = some (j, rest) := by
  induction j using Json.myInduction with
  | hnull =>
    intro _ fuel rest hfuel _
    obtain ⟨f, rfl⟩ : ∃ f, fuel = f + 1 := ⟨fuel - 1, by
      rw [show Json.fuelNeed Json.null = 1 from rfl] at hfuel; omega⟩
    exact parseVal_null_stringify f rest
  | hbool b =>
    intro _ fuel rest hfuel _
    obtain ⟨f, rfl⟩ : ∃ f, fuel = f + 1 := ⟨fuel - 1, by
      rw [show Json.fuelNeed (Json.bool b) = 1 from rfl] at hfuel; omega⟩
    exact parseVal_bool_stringify b f rest
  | hnum n =>
    intro _ fuel rest hfuel hdelim
    obtain ⟨f, rfl⟩ : ∃ f, fuel = f + 1 := ⟨fuel - 1, by
      rw [show Json.fuelNeed (Json.num n) = 1 from rfl] at hfuel; omega⟩
    exact parseVal_num_stringify n f rest hdelim
  | hstr s =>
    intro hwf fuel rest hfuel _
    obtain ⟨f, rfl⟩ : ∃ f, fuel = f + 1 := ⟨fuel - 1, by
      rw [show Json.fuelNeed (Json.str s) = 1 from rfl] at hfuel; omega⟩
    exact parseVal_str_stringify s (all_scalarOk_lt s (by simpa [Json.wf] using hwf)) f rest
  | harr l hl =>
    intro hwf fuel rest hfuel _
    have hwl := wfList_mem l (by simpa [Json.wf] using hwf)
    rw [show Json.fuelNeed (Json.arr l) = 1 + Json.fuelNeedElems l from rfl] at hfuel
    obtain ⟨f, rfl⟩ : ∃ f, fuel = f + 1 := ⟨fuel - 1, by omega⟩
    show parseVal (f + 1) ((91 :: (Json.stringifyElems l ++ [93])) ++ rest) = _
    simp only [List.cons_append, List.append_assoc, List.nil_append]
    unfold parseVal
    rw [skipWs_not_ws 91 _ (by decide)]
    dsimp only
    rw [if_neg (by decide), if_neg (by decide), if_neg (by decide), if_neg (by decide),
      if_pos rfl]
    cases l with
    | nil =>
      rw [show Json.stringifyElems [] = [] from rfl]
      simp only [List.nil_append]
      rw [skipWs_not_ws 93 _ (by decide)]
      dsimp only
      rw [if_pos rfl]
    | cons j0 l0 =>
      have hhead := stringifyElems_headOk (j0 :: l0) (by simp)
      obtain ⟨c0, t0, hct, hws, h93, _, _, _⟩ :=
        headOk_cons _ (headOk_append _ (93 :: rest) hhead)
      rw [hct, skipWs_not_ws c0 _ hws]
      dsimp only
      rw [if_neg (by
        intro hd
        rw [hd] at hct
        have : headOk (Json.stringifyElems (j0 :: l0) ++ 93 :: rest) :=
          headOk_append _ _ hhead
        rw [hct] at this
        exact this.2.1 rfl)]
      rw [← hct]
      rw [parseElems_stringify (j0 :: l0)
        (fun x hx => hl x hx (hwl x hx)) (by simp) f rest (by omega)]
      rfl
  | hobj l hl =>
    intro hwf fuel rest hfuel _
    have hwl := wfFields_mem l (by simpa [Json.wf] using hwf)
    rw [show Json.fuelNeed (Json.obj l) = 1 + Json.fuelNeedFields l from rfl] at hfuel
    obtain ⟨f, rfl⟩ : ∃ f, fuel = f + 1 := ⟨fuel - 1, by omega⟩
    show parseVal (f + 1) ((123 :: (Json.stringifyFields l ++ [125])) ++ rest) = _
    simp only [List.cons_append, List.append_assoc, List.nil_append]
    unfold parseVal
    rw [skipWs_not_ws 123 _ (by decide)]
    dsimp only
    rw [if_neg (by decide), if_neg (by decide), if_neg (by decide), if_neg (by decide),
      if_neg (by decide), if_pos rfl]
    cases l with
    | nil =>
      rw [show Json.stringifyFields [] = [] from rfl]
      simp only [List.nil_append]
      rw [skipWs_not_ws 125 _ (by decide)]
      dsimp only
      rw [if_pos rfl]
    | cons p0 l0 =>
      obtain ⟨k0, v0⟩ := p0
      obtain ⟨t0, ht0⟩ := stringifyFields_cons_head k0 v0 l0
      rw [ht0]
      simp only [List.cons_append]
      rw [skipWs_not_ws 34 _ (by decide)]
      dsimp only
      rw [if_neg (by decide)]
      rw [show (34 : Nat) :: (t0 ++ 125 :: rest) =
        Json.stringifyFields ((k0, v0) :: l0) ++ 125 :: rest by rw [ht0]; rfl]
      rw [parseFields_stringify ((k0, v0) :: l0)
        (fun x y hxy =>
          ⟨all_scalarOk_lt x (hwl x y hxy).1, hl x y hxy (hwl x y hxy).2⟩)
        (by simp) f rest (by omega)]
      rfl

theorem intToBytes_ne_nil (n : Int) : intToBytes n ≠ [] := by
  unfold intToBytes
  split
  · simp
  · exact natToDigits_ne_nil n.natAbs

theorem fuelNeedElems_le (l : List Json)
    (hl : ∀ j ∈ l, j.fuelNeed ≤ j.stringify.length) :
    Json.fuelNeedElems l ≤ (Json.stringifyElems l).length + 1 := by
  induction l with
  | nil => simp [Json.fuelNeedElems, Json.stringifyElems]
  | cons j l0 ih =>
    have hj := hl j (List.mem_cons_self j l0)
    cases l0 with
    | nil =>
      rw [show Json.fuelNeedElems [j] = 1 + j.fuelNeed + 0 from rfl,
        show Json.stringifyElems [j] = j.stringify from rfl]
      omega
    | cons j2 l2 =>
      have := ih (fun x hx => hl x (List.mem_cons_of_mem j hx))
      rw [show Json.fuelNeedElems (j :: j2 :: l2) =
          1 + j.fuelNeed + Json.fuelNeedElems (j2 :: l2) from rfl,
        show Json.stringifyElems (j :: j2 :: l2) =
          j.stringify ++ 44 :: Json.stringifyElems (j2 :: l2) from rfl]
      simp only [List.length_append, List.length_cons]
      omega

theorem fuelNeedFields_le (l : List (List Nat × Json))
    (hl : ∀ k v, (k, v) ∈ l → v.fuelNeed ≤ v.stringify.length) :
    Json.fuelNeedFields l ≤ (Json.stringifyFields l).length + 1 := by
  induction l with
  | nil => simp [Json.fuelNeedFields, Json.stringifyFields]
  | cons p l0 ih =>
    obtain ⟨k, v⟩ := p
    have hv := hl k v (List.mem_cons_self (k, v) l0)
    cases l0 with
    | nil =>
      rw [show Json.fuelNeedFields [(k, v)] = 1 + v.fuelNeed + 0 from rfl,
        show Json.stringifyFields [(k, v)] = stringifyStr k ++ 58 :: v.stringify from rfl]
      simp only [List.length_append, List.length_cons]
      omega
    | cons p2 l2 =>
      have := ih (fun x y hxy => hl x y (List.mem_cons_of_mem (k, v) hxy))
      rw [show Json.fuelNeedFields ((k, v) :: p2 :: l2) =
          1 + v.fuelNeed + Json.fuelNeedFields (p2 :: l2) from rfl,
        show Json.stringifyFields ((k, v) :: p2 :: l2) =
          stringifyStr k ++ 58 :: v.stringify ++ 44 :: Json.stringifyFields (p2 :: l2)
          from rfl]
      simp only [List.length_append, List.length_cons]
      omega

theorem fuelNeed_le_length (j : Json) : j.fuelNeed ≤ j.stringify.length := by
  induction j using Json.myInduction with
  | hnull => decide
  | hbool b => cases b <;> decide
  | hnum n =>
    rw [show Json.fuelNeed (Json.num n) = 1 from rfl]
    show 1 ≤ (intToBytes n).length
    cases h : intToBytes n with
    | nil => exact absurd h (intToBytes_ne_nil n)
    | cons c t => simp
  | hstr s =>
    rw [show Json.fuelNeed (Json.str s) = 1 from rfl]
    show 1 ≤ (stringifyStr s).length
    simp [stringifyStr]
  | harr l hl =>
    rw [show Json.fuelNeed (Json.arr l) = 1 + Json.fuelNeedElems l from rfl,
      show (Json.arr l).stringify = 91 :: (Json.stringifyElems l ++ [93]) from rfl]
    have := fuelNeedElems_le l hl
    simp only [List.length_cons, List.length_append]
    omega
  | hobj l hl =>
    rw [show Json.fuelNeed (Json.obj l) = 1 + Json.fuelNeedFields l from rfl,
      show (Json.obj l).stringify = 123 :: (Json.stringifyFields l ++ [125]) from rfl]
    have := fuelNeedFields_le l hl
    simp only [List.length_cons, List.length_append]
    omega

/-- `JSON.parse` inverts `JSON.stringify` on well-formed values. -/
theorem jsonParse_stringify (j : Json) (hwf : Json.wf j = true) :
    jsonParse j.stringify = some j := by
  unfold jsonParse
  have h1 : parseVal (j.stringify.length + 1) (j.stringify ++ []) = some (j, []) :=
    parseVal_stringify j hwf (j.stringify.length + 1) []
      (le_trans (fuelNeed_le_length j) (by omega)) rfl
  rw [List.append_nil] at h1
  rw [h1]
  rfl

/-! ## Base64 lemmas -/

theorem b64Val_b64Char : ∀ n < 64, b64Val (b64Char n) = some n := by decide

theorem b64Decode_b64Encode (bs : List Nat) (hbs : ∀ b ∈ bs, b < 256) :
    b64Decode (b64Encode bs) = bs := by
  unfold b64Decode
  induction bs using b64Encode.induct with
  | case1 => rfl
  | case2 a =>
    have ha := hbs a (List.mem_cons_self a [])
    rw [show b64Encode [a] = [b64Char (a / 4), b64Char ((a % 4) * 16), 61, 61] from rfl]
    rw [List.filterMap]
    simp only [List.filterMap_cons]
    rw [b64Val_b64Char (a / 4) (by omega), b64Val_b64Char ((a % 4) * 16) (by omega)]
    rw [show b64Val 61 = none from rfl]
    show b64Quads [a / 4, a % 4 * 16] = [a]
    unfold b64Quads
    have : a / 4 * 4 + a % 4 * 16 / 16 = a := by omega
    rw [this]
  | case3 a b =>
    have ha := hbs a (by simp)
    have hb := hbs b (by simp)
    rw [show b64Encode [a, b] =
      [b64Char (a / 4), b64Char ((a % 4) * 16 + b / 16), b64Char ((b % 16) * 4), 61]
      from rfl]
    simp only [List.filterMap_cons]
    rw [b64Val_b64Char (a / 4) (by omega), b64Val_b64Char ((a % 4) * 16 + b / 16) (by omega),
      b64Val_b64Char ((b % 16) * 4) (by omega)]
    rw [show b64Val 61 = none from rfl]
    show b64Quads [a / 4, a % 4 * 16 + b / 16, b % 16 * 4] = [a, b]
    unfold b64Quads
    have h1 : a / 4 * 4 + (a % 4 * 16 + b / 16) / 16 = a := by omega
    have h2 : (a % 4 * 16 + b / 16) % 16 * 16 + b % 16 * 4 / 4 = b := by omega
    rw [h1, h2]
  | case4 a b c rest ih =>
    have ha := hbs a (by simp)
    have hb := hbs b (by simp)
    have hc := hbs c (by simp)
    rw [show b64Encode (a :: b :: c :: rest) =
      b64Char (a / 4) :: b64Char ((a % 4) * 16 + b / 16) ::
        b64Char ((b % 16) * 4 + c / 64) :: b64Char (c % 64) :: b64Encode rest from rfl]
    simp only [List.filterMap_cons]
    rw [b64Val_b64Char (a / 4) (by omega), b64Val_b64Char ((a % 4) * 16 + b / 16) (by omega),
      b64Val_b64Char ((b % 16) * 4 + c / 64) (by omega), b64Val_b64Char (c % 64) (by omega)]
    show b64Quads (a / 4 :: (a % 4 * 16 + b / 16) :: (b % 16 * 4 + c / 64) :: c % 64 ::
      List.filterMap b64Val (b64Encode rest)) = a :: b :: c :: rest
    rw [show ∀ w x y z t, b64Quads (w :: x :: y :: z :: t) =
      (w * 4 + x / 16) :: ((x % 16) * 16 + y / 4) :: ((y % 4) * 64 + z) :: b64Quads t
      from fun _ _ _ _ _ => rfl]
    have h1 : a / 4 * 4 + (a % 4 * 16 + b / 16) / 16 = a := by omega
    have h2 : (a % 4 * 16 + b / 16) % 16 * 16 + (b % 16 * 4 + c / 64) / 4 = b := by omega
    have h3 : (b % 16 * 4 + c / 64) % 4 * 64 + c % 64 = c := by omega
    rw [h1, h2, h3, ih (fun x hx => hbs x (by simp [hx]))]

/-! ## XOR lemmas -/

theorem xorBuffer_length (data key : List Nat) :
    (xorBuffer data key).length = data.length := by
  simp [xorBuffer]

theorem xorBuffer_bytes_lt (data key : List Nat) : ∀ b ∈ xorBuffer data key, b < 256 := by
  intro b hb
  simp only [xorBuffer, List.mem_map] at hb
  obtain ⟨i, _, rfl⟩ := hb
  exact Nat.mod_lt _ (by omega)

theorem xorBuffer_involution (data key : List Nat)
    (hdata : ∀ b ∈ data, b < 256) (hkey : ∀ c ∈ key, c < 1114112) :
    xorBuffer (xorBuffer data key) key = data := by
  have hkb : ∀ b ∈ utf8Encode key, b < 256 := utf8Encode_bytes_lt key hkey
  apply List.ext_getElem
  · rw [xorBuffer_length, xorBuffer_length]
  · intro i h1 h2
    rw [xorBuffer_length, xorBuffer_length] at h1
    simp only [xorBuffer, List.getElem_map, List.getElem_range]
    have hinner : (xorBuffer data key).getD i 0 =
        ((data.getD i 0) ^^^ ((utf8Encode key).getD (i % (utf8Encode key).length) 0)) % 256 := by
      have : i < (xorBuffer data key).length := by rw [xorBuffer_length]; exact h1
      rw [List.getD_eq_getElem _ _ this]
      simp only [xorBuffer, List.getElem_map, List.getElem_range]
    simp only [xorBuffer] at hinner
    rw [hinner]
    set kb := (utf8Encode key).getD (i % (utf8Encode key).length) 0 with hkbdef
    have hkblt : kb < 256 := by
      rcases Nat.eq_zero_or_pos (utf8Encode key).length with hz | hpos
      · rw [hkbdef, List.getD_eq_default]
        · omega
        · omega
      · rw [hkbdef, List.getD_eq_getElem _ _ (Nat.mod_lt _ hpos)]
        exact hkb _ (List.getElem_mem _)
    have hdlt : data.getD i 0 < 256 := by
      rw [List.getD_eq_getElem _ _ h1]
      exact hdata _ (List.getElem_mem _)
    have hxlt : data.getD i 0 ^^^ kb < 256 :=
      Nat.xor_lt_two_pow (n := 8) hdlt hkblt
    rw [Nat.mod_eq_of_lt hxlt, Nat.xor_cancel_right, Nat.mod_eq_of_lt hdlt]
    rw [List.getD_eq_getElem _ _ h1]

/-! ## Serialized bytes are bytes -/

theorem escapeChar_bytes_lt (c : Nat) (hc : c < 1114112) :
    ∀ b ∈ escapeChar c, b < 256 := by
  intro b hb
  unfold escapeChar at hb
  split at hb
  · simp at hb; omega
  all_goals split at hb
  · simp at hb; omega
  all_goals split at hb
  · simp at hb; omega
  all_goals split at hb
  · simp at hb; omega
  all_goals split at hb
  · simp at hb; omega
  all_goals split at hb
  · simp at hb; omega
  all_goals split at hb
  · simp at hb; omega
  all_goals split at hb
  · simp only [hexDigitChar, List.mem_cons, List.not_mem_nil, or_false] at hb
    have d1 : hexDigitChar (c / 16) < 256 := by unfold hexDigitChar; split <;> omega
    have d2 : hexDigitChar (c % 16) < 256 := by unfold hexDigitChar; split <;> omega
    rcases hb with h | h | h | h | h | h <;> simp_all [hexDigitChar]
  · exact utf8EncodeChar_bytes_lt c hc b hb

theorem stringifyStr_bytes_lt (s : List Nat) (hs : ∀ c ∈ s, c < 1114112) :
    ∀ b ∈ stringifyStr s, b < 256 := by
  intro b hb
  unfold stringifyStr at hb
  simp only [List.mem_cons, List.mem_append, List.mem_flatten, List.mem_map,
    List.not_mem_nil, or_false] at hb
  rcases hb with rfl | ⟨l, ⟨c, hc, rfl⟩, hbl⟩ | rfl
  · omega
  · exact escapeChar_bytes_lt c (hs c hc) b hbl
  · omega

theorem intToBytes_bytes_lt (n : Int) : ∀ b ∈ intToBytes n, b < 256 := by
  intro b hb
  unfold intToBytes at hb
  split at hb
  · simp only [List.mem_cons] at hb
    rcases hb with rfl | hb
    · omega
    · have := natToDigits_digits n.natAbs b hb; omega
  · have := natToDigits_digits n.natAbs b hb; omega

theorem stringifyElems_bytes_lt (l : List Json)
    (hl : ∀ j ∈ l, ∀ b ∈ j.stringify, b < 256) :
    ∀ b ∈ Json.stringifyElems l, b < 256 := by
  induction l with
  | nil => intro b hb; cases hb
  | cons j l0 ih =>
    have hj := hl j (List.mem_cons_self j l0)
    cases l0 with
    | nil =>
      rw [show Json.stringifyElems [j] = j.stringify from rfl]
      exact hj
    | cons j2 l2 =>
      rw [show Json.stringifyElems (j :: j2 :: l2) =
        j.stringify ++ 44 :: Json.stringifyElems (j2 :: l2) from rfl]
      intro b hb
      simp only [List.mem_append, List.mem_cons] at hb
      rcases hb with hb | rfl | hb
      · exact hj b hb
      · omega
      · exact ih (fun x hx => hl x (List.mem_cons_of_mem j hx)) b hb

theorem stringifyFields_bytes_lt (l : List (List Nat × Json))
    (hkeys : ∀ k v, (k, v) ∈ l → ∀ c ∈ k, c < 1114112)
    (hl : ∀ k v, (k, v) ∈ l → ∀ b ∈ v.stringify, b < 256) :
    ∀ b ∈ Json.stringifyFields l, b < 256 := by
  induction l with
  | nil => intro b hb; cases hb
  | cons p l0 ih =>
    obtain ⟨k, v⟩ := p
    have hk := stringifyStr_bytes_lt k (hkeys k v (List.mem_cons_self (k, v) l0))
    have hv := hl k v (List.mem_cons_self (k, v) l0)
    cases l0 with
    | nil =>
      rw [show Json.stringifyFields [(k, v)] = stringifyStr k ++ 58 :: v.stringify from rfl]
      intro b hb
      simp only [List.mem_append, List.mem_cons] at hb
      rcases hb with hb | rfl | hb
      · exact hk b hb
      · omega
      · exact hv b hb
    | cons p2 l2 =>
      rw [show Json.stringifyFields ((k, v) :: p2 :: l2) =
        stringifyStr k ++ 58 :: v.stringify ++ 44 :: Json.stringifyFields (p2 :: l2)
        from rfl]
      intro b hb
      rcases List.mem_append.mp hb with hb | hb
      · rcases List.mem_append.mp hb with hb | hb
        · exact hk b hb
        rcases List.mem_cons.mp hb with rfl | hb
        · omega
        · exact hv b hb
      · rcases List.mem_cons.mp hb with rfl | hb
        · omega
        · exact ih (fun x y hxy => hkeys x y (List.mem_cons_of_mem (k, v) hxy))
            (fun x y hxy => hl x y (List.mem_cons_of_mem (k, v) hxy)) b hb

theorem stringify_bytes_lt (j : Json) : Json.wf j = true →
    ∀ b ∈ j.stringify, b < 256 := by
  induction j using Json.myInduction with
  | hnull =>
    intro _ b hb
    rw [show Json.null.stringify = [110, 117, 108, 108] from rfl] at hb
    simp at hb
    omega
  | hbool b0 =>
    intro _ b hb
    cases b0
    · rw [show (Json.bool false).stringify = [102, 97, 108, 115, 101] from rfl] at hb
      simp at hb
      omega
    · rw [show (Json.bool true).stringify = [116, 114, 117, 101] from rfl] at hb
      simp at hb
      omega
  | hnum n => intro _ b hb; exact intToBytes_bytes_lt n b hb
  | hstr s =>
    intro hwf
    exact stringifyStr_bytes_lt s (all_scalarOk_lt s (by simpa [Json.wf] using hwf))
  | harr l hl =>
    intro hwf b hb
    have hwl := wfList_mem l (by simpa [Json.wf] using hwf)
    rw [show (Json.arr l).stringify = 91 :: (Json.stringifyElems l ++ [93]) from rfl] at hb
    simp only [List.mem_cons, List.mem_append, List.not_mem_nil, or_false] at hb
    rcases hb with rfl | hb | rfl
    · omega
    · exact stringifyElems_bytes_lt l (fun x hx => hl x hx (hwl x hx)) b hb
    · omega
  | hobj l hl =>
    intro hwf b hb
    have hwl := wfFields_mem l (by simpa [Json.wf] using hwf)
    rw [show (Json.obj l).stringify = 123 :: (Json.stringifyFields l ++ [125]) from rfl] at hb
    simp only [List.mem_cons, List.mem_append, List.not_mem_nil, or_false] at hb
    rcases hb with rfl | hb | rfl
    · omega
    · exact stringifyFields_bytes_lt l
        (fun x y hxy => all_scalarOk_lt x (hwl x y hxy).1)
        (fun x y hxy => hl x y hxy (hwl x y hxy).2) b hb
    · omega

/-! ## C1: the encode/decode round trip -/

/-- Well-formedness of an encryption key argument (`string | null`): a JS
string, all of whose code units are Unicode scalar values. -/
def keyOk : Option (List Nat) → Bool
  | none => true
  | some k => k.all scalarOk

/-- C1. For every JSON-serializable payload `p` and every key `k`
(including the empty string and `null`),
`decode(encode(p, k), k, false) == p`: `encode` serializes `p` as UTF-8
JSON, XORs byte-wise against the cyclically repeated key when the key is
non-empty, and base64-encodes; `decode` inverts each step. -/
theorem C1_encode_decode_roundtrip (p : Json) (k : Option (List Nat))
    (hp : Json.wf p = true) (hk : keyOk k = true) :
    decode (.text (encode p k)) k false = .ok (.json p) := by
  have hbytes := stringify_bytes_lt p hp
  cases k with
  | none =>
    unfold encode decode
    dsimp only
    rw [b64Decode_b64Encode p.stringify hbytes]
    rw [jsonParse_stringify p hp]
  | some key =>
    have hkey : ∀ c ∈ key, c < 1114112 := by
      intro c hc
      exact scalarOk_lt c (by simpa using List.all_eq_true.mp (by simpa [keyOk] using hk) c hc)
    unfold encode decode
    dsimp only
    by_cases hlen : key.length = 0
    · rw [if_pos hlen, if_pos hlen]
      rw [b64Decode_b64Encode p.stringify hbytes]
      rw [jsonParse_stringify p hp]
    · rw [if_neg hlen, if_neg hlen]
      rw [b64Decode_b64Encode (xorBuffer p.stringify key) (xorBuffer_bytes_lt _ _)]
      rw [xorBuffer_involution p.stringify key hbytes hkey]
      rw [jsonParse_stringify p hp]

/-- Concrete check of the C1 hypotheses and conclusion: the payload
`{"a":1}` with key `"abc"` round-trips. -/
theorem C1_witness :
    Json.wf (Json.obj [([97], Json.num 1)]) = true ∧
    keyOk (some [97, 98, 99]) = true ∧
    decode (.text (encode (Json.obj [([97], Json.num 1)]) (some [97, 98, 99])))
        (some [97, 98, 99]) false = .ok (.json (Json.obj [([97], Json.num 1)])) :=
  ⟨by decide, by decide,
    C1_encode_decode_roundtrip (Json.obj [([97], Json.num 1)]) (some [97, 98, 99])
      (by decide) (by decide)⟩

/-! ## The `RelayClient` state machine (relay.ts lines 44-315)

Instance fields become `ClientState`; the two local variables of the
promise executor inside `connect` (`settled`, `fullyConnected`) become
`ConnectLocal`.  The `pending` map (requestId → resolution callback) is
modelled by its key list: every registered callback has the same shape
(relay.ts 261-264), so invoking the callback for `id` with data `v` is the
effect list `invokePending id v`.  Likewise `pendingStreams` is its key
list and invoking a registered consumer is a `streamChunk`/`streamEnd`
effect keyed by the request id.  Each event handler becomes a pure
function returning the new state and the list of observable effects in
execution order; `Except.error` models an exception escaping the handler
uncaught. -/

inductive OutMsg where
  | clientHello (serverAddress serverPassword clientName : String)
  | ping
  | clientRpc (requestId : Nat) (action : String) (payload : List Nat)

inductive Effect where
  | emitEvent (name : String)
  | send (m : OutMsg)
  | showError (msg : String)
  | showInfo (msg : String)
  | settleResolve
  | settleReject (reason : String)
  | clearHeartbeat
  | clearReqTimeout (requestId : Nat)
  | rpcResolve (requestId : Nat) (v : Json)
  | rpcReject (requestId : Nat) (v : Json)
  | scheduleHelloRetry
  | scheduleReconnect
  | streamChunk (requestId : Nat) (bytes : List Nat)
  | streamEnd (requestId : Nat)
  | log (msg : String)
  | wsTerminate
  | wsPing
  | wsClose

/-- Incoming parsed control messages (`RelayMessage` in types.ts); for
`server_rpc_response` the payload is kept as the raw base64 text so that
its decoding happens inside the handler, as in the source. -/
inductive InMsg where
  | pong
  | clientHelloFailure
  | serverUpdate (serverName : String)
  | streamStart (requestId : Nat)
  | streamChunkNotice (requestId : Nat)
  | streamStop (requestId : Nat)
  | rpcResponse (requestId : Nat) (response : List Nat)
deriving DecidableEq

/-- The instance fields of `RelayClient` (relay.ts 45-58).  `heartbeat`
records whether a live heartbeat interval exists; map-valued fields are
modelled by their key lists. -/
structure ClientState where
  requestId : Nat
  connected : Bool
  heartbeat : Bool
  lastPong : Nat
  pending : List Nat
  serverName : String
  encryptionKey : Option (List Nat)
  pendingStreams : List Nat
  dontAttemptToReconnect : Bool
  pendingBinaryChunk : Option Nat
deriving DecidableEq

/-- The local variables of one `connect` call's promise executor
(relay.ts 69-70). -/
structure ConnectLocal where
  settled : Bool
  fullyConnected : Bool
deriving DecidableEq

/-- The state of a freshly constructed `RelayClient` (relay.ts 45-58). -/
def initialState : ClientState :=
  { requestId := 1, connected := false, heartbeat := false, lastPong := 0,
    pending := [], serverName := "", encryptionKey := none, pendingStreams := [],
    dontAttemptToReconnect := false, pendingBinaryChunk := none }

/-- `Map.set` on a map modelled by its key list. -/
def mapSet (m : List Nat) (k : Nat) : List Nat := if m.contains k then m else m ++ [k]

/-- "success" -/
def successKey : List Nat := [115, 117, 99, 99, 101, 115, 115]
/-- "error_code" -/
def errorCodeKey : List Nat := [101, 114, 114, 111, 114, 95, 99, 111, 100, 101]
/-- "requestId" -/
def requestIdKey : List Nat := [114, 101, 113, 117, 101, 115, 116, 73, 100]
/-- "connection_lost" -/
def connectionLostStr : List Nat :=
  [99, 111, 110, 110, 101, 99, 116, 105, 111, 110, 95, 108, 111, 115, 116]

/-- The synthetic failure object
`{ success: false, error_code: "connection_lost", requestId }`
(relay.ts 211 and 259). -/
def connLostJson (id : Nat) : Json :=
  .obj [(successKey, .bool false), (errorCodeKey, .str connectionLostStr),
    (requestIdKey, .num (id : Int))]

/-- Setting one key of a JS object: an existing key keeps its position
with the new value, a new key is appended. -/
def setKey : List (List Nat × Json) → List Nat → Json → List (List Nat × Json)
  | [], k, v => [(k, v)]
  | (k', v') :: rest, k, v =>
    if k' = k then (k, v) :: rest else (k', v') :: setKey rest k v

/-- The spread `{ ...data, requestId: currentRequestId }` (relay.ts 263). -/
def spreadWithRequestId (j : Json) (id : Nat) : Json :=
  match j with
  | .obj fields => .obj (setKey fields requestIdKey (.num (id : Int)))
  | _ => .obj [(requestIdKey, .num (id : Int))]

/-- Invoking the resolution callback registered for a pending RPC with
data `v`: it clears the request timeout and resolves the caller's promise
with `{ ...v, requestId: id }` (relay.ts 261-264). -/
def invokePending (id : Nat) (v : Json) : List Effect :=
  [Effect.clearReqTimeout id, Effect.rpcResolve id (spreadWithRequestId v id)]

/-- `send(obj)` (relay.ts 243-249): a no-op unless `connected`. -/
def sendMsg (s : ClientState) (m : OutMsg) : List Effect :=
  if s.connected then [Effect.send m] else []

/-- The `open` handler (relay.ts 77-98): sets `connected`, refreshes
`lastPong`, sends `client_hello` and installs the heartbeat interval. -/
def handleOpen (s : ClientState) (cl : ConnectLocal) (now : Nat)
    (address password clientName : String) : ClientState × ConnectLocal × List Effect :=
  let s1 := { s with connected := true, lastPong := now }
  ({ s1 with heartbeat := true }, cl, sendMsg s1 (.clientHello address password clientName))

/-- One tick of the heartbeat interval (relay.ts 88-97). -/
def heartbeatTick (s : ClientState) (now : Nat) : List Effect :=
  if now - s.lastPong > 30000 then
    [Effect.log "Heartbeat requestTimeout, terminating", Effect.wsTerminate]
  else [Effect.wsPing] ++ sendMsg s .ping

/-- The transport-level `pong` handler (relay.ts 100-102). -/
def handlePong (s : ClientState) (now : Nat) : ClientState := { s with lastPong := now }

/-- The text branch of the `message` handler (relay.ts 127-196),
dispatching on the parsed control message. -/
def handleTextMessage (s : ClientState) (cl : ConnectLocal) (now : Nat) (m : InMsg) :
    Except String (ClientState × ConnectLocal × List Effect) :=
  match m with
  | .pong => .ok ({ s with lastPong := now }, cl, [])
  | .clientHelloFailure =>
    .ok (s, cl,
      [Effect.showError
        "Failed to connect to server. Ensure the server is running and the password is correct.",
       Effect.scheduleHelloRetry])
  | .serverUpdate name =>
    .ok ({ s with serverName := name },
      { cl with fullyConnected := true, settled := true },
      [Effect.showInfo "Connected to server", Effect.emitEvent "connected"] ++
        (if cl.settled then [] else [Effect.settleResolve]))
  | .streamStart _ => .ok (s, cl, [])
  | .streamChunkNotice id => .ok ({ s with pendingBinaryChunk := some id }, cl, [])
  | .streamStop id =>
    if s.pendingStreams.contains id then
      .ok ({ s with
          pendingStreams := s.pendingStreams.erase id
          pendingBinaryChunk := none },
        cl, [Effect.streamEnd id])
    else .ok (s, cl, [])
  | .rpcResponse id resp =>
    if s.pending.contains id then
      match decode (.text resp) s.encryptionKey false with
      | .error e => .error e
      | .ok (.json v) =>
        .ok ({ s with pending := s.pending.erase id }, cl, invokePending id v)
      | .ok (.bin _) => .ok (s, cl, [])
    else .ok (s, cl, [])

/-- The binary branch of the `message` handler (relay.ts 105-125). -/
def handleBinary (s : ClientState) (cl : ConnectLocal) (d : List Nat) :
    Except String (ClientState × ConnectLocal × List Effect) :=
  match s.pendingBinaryChunk with
  | none =>
    .ok (s, cl,
      [Effect.log "We received a binary chunk but we don't have a pending binary chunk!"])
  | some id =>
    let s1 := { s with pendingBinaryChunk := none }
    if s1.pendingStreams.contains id then
      match decode (.buf d) s1.encryptionKey true with
      | .error e => .error e
      | .ok (.bin bytes) => .ok (s1, cl, [Effect.streamChunk id bytes])
      | .ok (.json _) => .ok (s1, cl, [])
    else
      .ok (s1, cl,
        [Effect.log
          "We received a binary chunk but we don't have a pending binary chunk handler!"])

/-- Resolving every pending RPC entry with the synthetic connection-lost
failure, in map order (relay.ts 210-212). -/
def closeResolveEffects : List Nat → List Effect
  | [] => []
  | id :: rest => invokePending id (connLostJson id) ++ closeResolveEffects rest

/-- The `close` handler (relay.ts 198-231). -/
def handleClose (s : ClientState) (cl : ConnectLocal) :
    ClientState × ConnectLocal × List Effect :=
  let effs1 := [Effect.emitEvent "disconnected"]
  let effs2 := if s.heartbeat then [Effect.clearHeartbeat] else []
  let effs3 := closeResolveEffects s.pending
  let cl' := if cl.settled then cl else { cl with settled := true }
  let effs4 :=
    if cl.settled then [] else [Effect.settleReject "Socket closed during connect"]
  let effs5 :=
    if !s.dontAttemptToReconnect && cl.fullyConnected then
      [Effect.showError "Connection lost, reconnecting...", Effect.scheduleReconnect]
    else []
  ({ s with
      connected := false
      heartbeat := false
      pending := []
      dontAttemptToReconnect := false },
   cl', effs1 ++ effs2 ++ effs3 ++ effs4 ++ effs5)

/-- The `error` handler (relay.ts 233-238). -/
def handleError (s : ClientState) (cl : ConnectLocal) :
    ClientState × ConnectLocal × List Effect :=
  if cl.settled then (s, cl, [])
  else (s, { cl with settled := true }, [Effect.settleReject "WebSocket error"])

/-- The synchronous part of `connect` before any event fires
(relay.ts 64-75): stores the key, emits `connecting` and creates a fresh
promise executor with `settled = fullyConnected = false`. -/
def connectCall (s : ClientState) (encryptionKey : Option (List Nat)) :
    ClientState × ConnectLocal × List Effect :=
  ({ s with encryptionKey := encryptionKey }, ⟨false, false⟩, [Effect.emitEvent "connecting"])

/-- Result of one `rpc` call: `issued = none` models
`Promise.reject(new Error("Not connected"))` with no other activity. -/
structure RpcOutcome where
  state : ClientState
  issued : Option Nat
  effects : List Effect

/-- `rpc(action, payload)` (relay.ts 250-275). -/
def rpc (s : ClientState) (action : String) (payload : Json) : RpcOutcome :=
  if !s.connected then ⟨s, none, []⟩
  else
    let currentRequestId := s.requestId
    let s1 := { s with requestId := s.requestId + 1 }
    let s2 := { s1 with pending := mapSet s1.pending currentRequestId }
    ⟨s2, some currentRequestId,
      sendMsg s2 (.clientRpc currentRequestId action (encode payload s2.encryptionKey))⟩

/-- The body of the per-request timeout (relay.ts 257-260): remove the
entry and REJECT the caller's promise with the synthetic failure. -/
def rpcTimeoutFires (s : ClientState) (id : Nat) : ClientState × List Effect :=
  ({ s with pending := s.pending.erase id }, [Effect.rpcReject id (connLostJson id)])

/-- `stream(requestId, onChunk, onEnd)` (relay.ts 277-279). -/
def stream (s : ClientState) (requestId : Nat) : ClientState :=
  { s with pendingStreams := mapSet s.pendingStreams requestId }

/-- `streamFillBuffer` (relay.ts 281-283) registers a stream whose chunk
callback appends to a buffer and whose end callback resolves the returned
promise — so that promise settles exactly when a `streamEnd requestId`
effect is emitted. -/
def streamFillBuffer (s : ClientState) (requestId : Nat) : ClientState :=
  stream s requestId

/-- `stopStream(requestId)` (relay.ts 285-287). -/
def stopStream (s : ClientState) (requestId : Nat) : ClientState :=
  { s with pendingStreams := s.pendingStreams.erase requestId }

/-- `disconnect()` (relay.ts 293-296). -/
def disconnect (s : ClientState) : ClientState × List Effect :=
  ({ s with dontAttemptToReconnect := true }, [Effect.wsClose])

/-! ## Traces of operations on one `RelayClient` instance -/

inductive Op where
  | callConnect (encryptionKey : Option (List Nat))
  | evOpen (now : Nat) (address password clientName : String)
  | evPong (now : Nat)
  | evMsg (now : Nat) (m : InMsg)
  | evBinary (d : List Nat)
  | evClose
  | evError
  | callRpc (action : String) (payload : Json)
  | rpcTimeout (id : Nat)
  | callStream (id : Nat)
  | callStopStream (id : Nat)
  | callDisconnect

/-- One step: the new state, the effects emitted, and the request id
issued (for `callRpc` that does not reject immediately).  A handler whose
exception escapes (`Except.error`) aborts with no observable effects. -/
def step (st : ClientState × ConnectLocal) (op : Op) :
    (ClientState × ConnectLocal) × List Effect × Option Nat :=
  match op with
  | .callConnect key =>
    let r := connectCall st.1 key
    ((r.1, r.2.1), r.2.2, none)
  | .evOpen now a p c =>
    let r := handleOpen st.1 st.2 now a p c
    ((r.1, r.2.1), r.2.2, none)
  | .evPong now => ((handlePong st.1 now, st.2), [], none)
  | .evMsg now m =>
    match handleTextMessage st.1 st.2 now m with
    | .ok r => ((r.1, r.2.1), r.2.2, none)
    | .error _ => (st, [], none)
  | .evBinary d =>
    match handleBinary st.1 st.2 d with
    | .ok r => ((r.1, r.2.1), r.2.2, none)
    | .error _ => (st, [], none)
  | .evClose =>
    let r := handleClose st.1 st.2
    ((r.1, r.2.1), r.2.2, none)
  | .evError =>
    let r := handleError st.1 st.2
    ((r.1, r.2.1), r.2.2, none)
  | .callRpc a pl =>
    let r := rpc st.1 a pl
    ((r.state, st.2), r.effects, r.issued)
  | .rpcTimeout id =>
    let r := rpcTimeoutFires st.1 id
    ((r.1, st.2), r.2, none)
  | .callStream id => ((stream st.1 id, st.2), [], none)
  | .callStopStream id => ((stopStream st.1 id, st.2), [], none)
  | .callDisconnect =>
    let r := disconnect st.1
    ((r.1, st.2), r.2, none)

/-- Run a list of operations, collecting all effects and issued ids. -/
def runOps (st : ClientState × ConnectLocal) :
    List Op → (ClientState × ConnectLocal) × List Effect × List Nat
  | [] => (st, [], [])
  | op :: ops =>
    let r1 := step st op
    let r2 := runOps r1.1 ops
    (r2.1, r1.2.1 ++ r2.2.1, r1.2.2.toList ++ r2.2.2)

/-! ## Effect and operation classifiers -/

def isResolveFor (id : Nat) : Effect → Bool
  | .rpcResolve i _ => i = id
  | _ => false

def isResolveEffect : Effect → Bool
  | .rpcResolve _ _ => true
  | _ => false

def isStreamEndEffect : Effect → Bool
  | .streamEnd _ => true
  | _ => false

def isStreamChunkEffect : Effect → Bool
  | .streamChunk _ _ => true
  | _ => false

def isSendEffect : Effect → Bool
  | .send _ => true
  | _ => false

def isSettleEffect : Effect → Bool
  | .settleResolve => true
  | .settleReject _ => true
  | _ => false

def isCallConnect : Op → Bool
  | .callConnect _ => true
  | _ => false

/-- Operations whose handler settles the connect promise when it is still
unsettled: `server_update`, transport close, transport error. -/
def isSettlerOp : Op → Bool
  | .evClose => true
  | .evError => true
  | .evMsg _ (.serverUpdate _) => true
  | _ => false

def exceptOk {ε α : Type} : Except ε α → Bool
  | .ok _ => true
  | .error _ => false

/-! ## C2: RPC timeout -/

theorem spread_connLost (id : Nat) :
    spreadWithRequestId (connLostJson id) id = connLostJson id := by
  simp [spreadWithRequestId, connLostJson, setKey, successKey, errorCodeKey, requestIdKey]

/-- C2 counterexample.  The claim says the timeout RESOLVES the caller's
promise with the connection-lost failure; in the code
(relay.ts 257-260) the timeout callback calls `reject`, not `resolve`:
at a concrete state with request 1 pending, the timeout emits exactly one
`rpcReject` effect and no `rpcResolve` effect. -/
theorem C2_counterexample :
    (rpcTimeoutFires { initialState with connected := true, requestId := 2, pending := [1] }
        1).2 = [Effect.rpcReject 1 (connLostJson 1)] ∧
    ((rpcTimeoutFires { initialState with connected := true, requestId := 2, pending := [1] }
        1).2.all (fun e => !(isResolveEffect e))) = true :=
  ⟨rfl, rfl⟩

/-- C2 (amended).  When an in-flight RPC's timeout elapses, the Pending
RPC entry is removed from the pending map and the caller's promise is
REJECTED (not resolved) with the failure
`{success:false, error_code:"connection_lost", requestId}`. -/
theorem C2_timeout_rejects (s : ClientState) (id : Nat) (hnd : s.pending.Nodup) :
    id ∉ (rpcTimeoutFires s id).1.pending ∧
    (rpcTimeoutFires s id).2 = [Effect.rpcReject id (connLostJson id)] ∧
    ∀ e ∈ (rpcTimeoutFires s id).2, isResolveEffect e = false := by
  refine ⟨?_, rfl, ?_⟩
  · exact hnd.not_mem_erase
  · intro e he
    rcases List.mem_cons.mp he with rfl | he
    · rfl
    · cases he

theorem C2_timeout_rejects_witness :
    (({ initialState with connected := true, requestId := 2, pending := [1] } :
        ClientState).pending.Nodup) ∧
    (1 ∉ (rpcTimeoutFires
        { initialState with connected := true, requestId := 2, pending := [1] } 1).1.pending ∧
      (rpcTimeoutFires
        { initialState with connected := true, requestId := 2, pending := [1] } 1).2 =
          [Effect.rpcReject 1 (connLostJson 1)] ∧
      ∀ e ∈ (rpcTimeoutFires
        { initialState with connected := true, requestId := 2, pending := [1] } 1).2,
          isResolveEffect e = false) :=
  ⟨by decide,
    C2_timeout_rejects { initialState with connected := true, requestId := 2, pending := [1] }
      1 (by decide)⟩

/-! ## C3: transport close resolves every pending RPC exactly once -/

theorem closeResolveEffects_count (l : List Nat) (id : Nat) :
    (closeResolveEffects l).countP (fun e => isResolveFor id e) = l.count id := by
  induction l with
  | nil => rfl
  | cons x xs ih =>
    rw [show closeResolveEffects (x :: xs) =
      Effect.clearReqTimeout x ::
        Effect.rpcResolve x (spreadWithRequestId (connLostJson x) x) ::
          closeResolveEffects xs from rfl]
    rw [List.countP_cons, List.countP_cons, ih, List.count_cons]
    simp only [isResolveFor]
    by_cases hx : x = id
    · subst hx; simp
    · simp [hx, Ne.symm hx]

theorem closeResolveEffects_mem (l : List Nat) (id : Nat) (h : id ∈ l) :
    Effect.rpcResolve id (connLostJson id) ∈ closeResolveEffects l := by
  induction l with
  | nil => cases h
  | cons x xs ih =>
    rw [show closeResolveEffects (x :: xs) =
      Effect.clearReqTimeout x ::
        Effect.rpcResolve x (spreadWithRequestId (connLostJson x) x) ::
          closeResolveEffects xs from rfl]
    rcases List.mem_cons.mp h with rfl | h
    · rw [spread_connLost]
      exact List.mem_cons_of_mem _ (List.mem_cons_self _ _)
    · exact List.mem_cons_of_mem _ (List.mem_cons_of_mem _ (ih h))

theorem closeResolveEffects_shape (l : List Nat) :
    ∀ e ∈ closeResolveEffects l,
      isStreamEndEffect e = false ∧ isStreamChunkEffect e = false ∧
        isSettleEffect e = false ∧ isSendEffect e = false := by
  induction l with
  | nil => intro e he; cases he
  | cons x xs ih =>
    intro e he
    rw [show closeResolveEffects (x :: xs) =
      Effect.clearReqTimeout x ::
        Effect.rpcResolve x (spreadWithRequestId (connLostJson x) x) ::
          closeResolveEffects xs from rfl] at he
    rcases List.mem_cons.mp he with rfl | he
    · exact ⟨rfl, rfl, rfl, rfl⟩
    rcases List.mem_cons.mp he with rfl | he
    · exact ⟨rfl, rfl, rfl, rfl⟩
    · exact ih e he

theorem handleClose_resolve_count (s : ClientState) (cl : ConnectLocal) (id : Nat) :
    ((handleClose s cl).2.2.countP (fun e => isResolveFor id e)) = s.pending.count id := by
  unfold handleClose
  dsimp only
  by_cases h1 : s.heartbeat <;> by_cases h2 : cl.settled <;>
    by_cases h3 : (!s.dontAttemptToReconnect && cl.fullyConnected) = true <;>
      simp [h1, h2, h3, List.countP_append, List.countP_cons, isResolveFor]
  all_goals exact closeResolveEffects_count s.pending id

/-- C3.  When the transport closes, every Pending RPC entry's callback is
invoked exactly once with the synthetic
`{success:false, error_code:"connection_lost", requestId}` failure, the
pending map is emptied, and the heartbeat timer is cleared; no entry is
resolved twice or left unresolved, and no id outside the map is
resolved. -/
theorem C3_close_resolves_all (s : ClientState) (cl : ConnectLocal)
    (hnd : s.pending.Nodup) :
    (handleClose s cl).1.pending = [] ∧
    (handleClose s cl).1.heartbeat = false ∧
    (s.heartbeat = true → Effect.clearHeartbeat ∈ (handleClose s cl).2.2) ∧
    (∀ id ∈ s.pending,
      ((handleClose s cl).2.2.countP (fun e => isResolveFor id e)) = 1 ∧
      Effect.rpcResolve id (connLostJson id) ∈ (handleClose s cl).2.2) ∧
    (∀ id, id ∉ s.pending →
      ((handleClose s cl).2.2.countP (fun e => isResolveFor id e)) = 0) := by
  refine ⟨rfl, rfl, ?_, ?_, ?_⟩
  · intro hb
    unfold handleClose
    dsimp only
    rw [hb]
    simp
  · intro id hid
    refine ⟨?_, ?_⟩
    · rw [handleClose_resolve_count]
      exact List.count_eq_one_of_mem hnd hid
    · unfold handleClose
      dsimp only
      have hmem := closeResolveEffects_mem s.pending id hid
      simp only [List.mem_append]
      tauto
  · intro id hid
    rw [handleClose_resolve_count]
    exact List.count_eq_zero_of_not_mem hid

theorem C3_close_resolves_all_witness :
    (({ initialState with connected := true, heartbeat := true, pending := [4, 9] } :
        ClientState).pending.Nodup) ∧
    ((handleClose { initialState with connected := true, heartbeat := true, pending := [4, 9] }
        ⟨true, true⟩).1.pending = [] ∧
      (handleClose { initialState with connected := true, heartbeat := true, pending := [4, 9] }
        ⟨true, true⟩).1.heartbeat = false ∧
      (({ initialState with connected := true, heartbeat := true, pending := [4, 9] } :
          ClientState).heartbeat = true →
        Effect.clearHeartbeat ∈
          (handleClose
            { initialState with connected := true, heartbeat := true, pending := [4, 9] }
            ⟨true, true⟩).2.2) ∧
      (∀ id ∈ ({ initialState with connected := true, heartbeat := true, pending := [4, 9] } :
          ClientState).pending,
        ((handleClose
            { initialState with connected := true, heartbeat := true, pending := [4, 9] }
            ⟨true, true⟩).2.2.countP (fun e => isResolveFor id e)) = 1 ∧
        Effect.rpcResolve id (connLostJson id) ∈
          (handleClose
            { initialState with connected := true, heartbeat := true, pending := [4, 9] }
            ⟨true, true⟩).2.2) ∧
      (∀ id, id ∉ ({ initialState with connected := true, heartbeat := true, pending := [4, 9] } :
          ClientState).pending →
        ((handleClose
            { initialState with connected := true, heartbeat := true, pending := [4, 9] }
            ⟨true, true⟩).2.2.countP (fun e => isResolveFor id e)) = 0)) :=
  ⟨by decide,
    C3_close_resolves_all
      { initialState with connected := true, heartbeat := true, pending := [4, 9] }
      ⟨true, true⟩ (by decide)⟩

/-! ## C10: transport close leaves the pending-streams map untouched -/

/-- C10.  The close handler (relay.ts 198-231) mutates only the connected
flag, the pending-RPC map, the heartbeat timer and the suppress-reconnect
flag: the pending-streams map, the binary-chunk marker, the request-id
counter, the server name, the key and the last-pong timestamp are left
unchanged, and no stream end or chunk callback is invoked — so a
`streamFillBuffer` promise for an in-flight stream is not settled by
connection loss. -/
theorem C10_close_preserves_streams (s : ClientState) (cl : ConnectLocal) :
    (handleClose s cl).1.pendingStreams = s.pendingStreams ∧
    (handleClose s cl).1.pendingBinaryChunk = s.pendingBinaryChunk ∧
    (handleClose s cl).1.requestId = s.requestId ∧
    (handleClose s cl).1.serverName = s.serverName ∧
    (handleClose s cl).1.encryptionKey = s.encryptionKey ∧
    (handleClose s cl).1.lastPong = s.lastPong ∧
    (handleClose s cl).1.connected = false ∧
    (handleClose s cl).1.pending = [] ∧
    (handleClose s cl).1.heartbeat = false ∧
    (handleClose s cl).1.dontAttemptToReconnect = false ∧
    (∀ e ∈ (handleClose s cl).2.2,
      isStreamEndEffect e = false ∧ isStreamChunkEffect e = false) := by
  refine ⟨rfl, rfl, rfl, rfl, rfl, rfl, rfl, rfl, rfl, rfl, ?_⟩
  intro e he
  unfold handleClose at he
  dsimp only at he
  rcases List.mem_append.mp he with he | he
  · rcases List.mem_append.mp he with he | he
    · rcases List.mem_append.mp he with he | he
      · rcases List.mem_append.mp he with he | he
        · rcases List.mem_cons.mp he with rfl | he
          · exact ⟨rfl, rfl⟩
          · cases he
        · split at he
          · rcases List.mem_cons.mp he with rfl | he
            · exact ⟨rfl, rfl⟩
            · cases he
          · cases he
      · have := closeResolveEffects_shape s.pending e he
        exact ⟨this.1, this.2.1⟩
    · split at he
      · cases he
      · rcases List.mem_cons.mp he with rfl | he
        · exact ⟨rfl, rfl⟩
        · cases he
  · split at he
    · rcases List.mem_cons.mp he with rfl | he
      · exact ⟨rfl, rfl⟩
      rcases List.mem_cons.mp he with rfl | he
      · exact ⟨rfl, rfl⟩
      · cases he
    · cases he

/-! ## C6: rpc while not Ready -/

/-- The spec's Ready state: the hello handshake completed with
`server_update` (the `fullyConnected` local of the connect call). -/
def Ready (cl : ConnectLocal) : Prop := cl.fullyConnected = true

/-- C6 counterexample.  The claim says every `rpc` call made while not
Ready (no `server_update` yet) rejects immediately with no network
activity and no request id consumed.  But `connected` is set already by
the transport `open` handler (relay.ts 78), and `rpc` only checks
`connected` (relay.ts 251): after `connect` + `open` alone — not Ready —
`rpc` issues request id 1, increments the counter and sends a
`client_rpc` frame. -/
theorem C6_counterexample :
    ¬ Ready ((runOps (initialState, ⟨false, false⟩)
        [Op.callConnect none, Op.evOpen 0 "addr" "pw" "client"]).1.2) ∧
    (rpc (runOps (initialState, ⟨false, false⟩)
        [Op.callConnect none, Op.evOpen 0 "addr" "pw" "client"]).1.1
      "FS.Stat" (Json.obj [])).issued = some 1 ∧
    (rpc (runOps (initialState, ⟨false, false⟩)
        [Op.callConnect none, Op.evOpen 0 "addr" "pw" "client"]).1.1
      "FS.Stat" (Json.obj [])).state.requestId = 2 ∧
    ((rpc (runOps (initialState, ⟨false, false⟩)
        [Op.callConnect none, Op.evOpen 0 "addr" "pw" "client"]).1.1
      "FS.Stat" (Json.obj [])).effects.countP isSendEffect) = 1 := by
  refine ⟨?_, rfl, rfl, rfl⟩
  show ¬ ((runOps (initialState, ⟨false, false⟩)
      [Op.callConnect none, Op.evOpen 0 "addr" "pw" "client"]).1.2.fullyConnected = true)
  decide

/-- C6 (amended).  `rpc(action, payload)` rejects immediately — with no
state change, no request id consumed and no frame sent — exactly when the
`connected` flag is false (transport not open); once the transport is
open it proceeds even before the handshake completes. -/
theorem C6_rpc_not_connected_rejects (s : ClientState) (action : String) (payload : Json)
    (h : s.connected = false) :
    rpc s action payload = ⟨s, none, []⟩ := by
  simp [rpc, h]

theorem C6_rpc_not_connected_rejects_witness :
    initialState.connected = false ∧
    rpc initialState "FS.Stat" (Json.obj []) = ⟨initialState, none, []⟩ :=
  ⟨rfl, C6_rpc_not_connected_rejects initialState "FS.Stat" (Json.obj []) rfl⟩

/-! ## C4: request ids strictly increase across the instance lifetime -/

theorem handleTextMessage_requestId (s : ClientState) (cl : ConnectLocal) (now : Nat)
    (m : InMsg) (r : ClientState × ConnectLocal × List Effect)
    (h : handleTextMessage s cl now m = .ok r) : r.1.requestId = s.requestId := by
  unfold handleTextMessage at h
  cases m with
  | pong => cases h; rfl
  | clientHelloFailure => cases h; rfl
  | serverUpdate name => cases h; rfl
  | streamStart id => cases h; rfl
  | streamChunkNotice id => cases h; rfl
  | streamStop id =>
    dsimp only at h
    split at h
    · cases h; rfl
    · cases h; rfl
  | rpcResponse id resp =>
    dsimp only at h
    split at h
    · split at h
      · cases h
      · cases h; rfl
      · cases h; rfl
    · cases h; rfl

theorem handleBinary_requestId (s : ClientState) (cl : ConnectLocal) (d : List Nat)
    (r : ClientState × ConnectLocal × List Effect)
    (h : handleBinary s cl d = .ok r) : r.1.requestId = s.requestId := by
  unfold handleBinary at h
  split at h
  · cases h; rfl
  · dsimp only at h
    split at h
    · split at h
      · cases h
      · cases h; rfl
      · cases h; rfl
    · cases h; rfl

/-- The request-id counter never decreases, a step issues at most the
current counter value, and issuing increments the counter. -/
theorem step_requestId (st : ClientState × ConnectLocal) (op : Op) :
    st.1.requestId ≤ ((step st op).1).1.requestId ∧
    (∀ id, (step st op).2.2 = some id →
      id = st.1.requestId ∧ ((step st op).1).1.requestId = st.1.requestId + 1) := by
  cases op with
  | callConnect key => exact ⟨le_refl _, by intro id h; cases h⟩
  | evOpen now a p c => exact ⟨le_refl _, by intro id h; cases h⟩
  | evPong now => exact ⟨le_refl _, by intro id h; cases h⟩
  | evMsg now m =>
    constructor
    · show st.1.requestId ≤ ((step st (.evMsg now m)).1).1.requestId
      unfold step
      dsimp only
      cases h : handleTextMessage st.1 st.2 now m with
      | ok r =>
        dsimp only
        rw [handleTextMessage_requestId st.1 st.2 now m r h]
      | error e => exact le_refl _
    · intro id h
      unfold step at h
      dsimp only at h
      split at h <;> simp at h
  | evBinary d =>
    constructor
    · show st.1.requestId ≤ ((step st (.evBinary d)).1).1.requestId
      unfold step
      dsimp only
      cases h : handleBinary st.1 st.2 d with
      | ok r =>
        dsimp only
        rw [handleBinary_requestId st.1 st.2 d r h]
      | error e => exact le_refl _
    · intro id h
      unfold step at h
      dsimp only at h
      split at h <;> simp at h
  | evClose => exact ⟨le_refl _, by intro id h; cases h⟩
  | evError =>
    constructor
    · show st.1.requestId ≤ ((step st .evError).1).1.requestId
      unfold step handleError
      dsimp only
      split <;> simp
    · intro id h
      unfold step at h
      dsimp only at h
      simp at h
  | callRpc a pl =>
    constructor
    · show st.1.requestId ≤ ((step st (.callRpc a pl)).1).1.requestId
      unfold step rpc
      dsimp only
      split <;> simp
    · intro id h
      show id = st.1.requestId ∧ ((step st (.callRpc a pl)).1).1.requestId = st.1.requestId + 1
      unfold step rpc at h ⊢
      dsimp only at h ⊢
      by_cases hc : (!st.1.connected) = true
      · rw [if_pos hc] at h
        dsimp only at h
        cases h
      · rw [if_neg hc] at h ⊢
        dsimp only at h ⊢
        injection h with h
        exact ⟨h.symm, rfl⟩
  | rpcTimeout id => exact ⟨le_refl _, by intro i h; cases h⟩
  | callStream id => exact ⟨le_refl _, by intro i h; cases h⟩
  | callStopStream id => exact ⟨le_refl _, by intro i h; cases h⟩
  | callDisconnect => exact ⟨le_refl _, by intro i h; cases h⟩

theorem runOps_requestId_mono (ops : List Op) :
    ∀ st : ClientState × ConnectLocal,
      st.1.requestId ≤ ((runOps st ops).1).1.requestId := by
  induction ops with
  | nil => intro st; exact le_refl _
  | cons op ops ih =>
    intro st
    exact le_trans (step_requestId st op).1 (ih (step st op).1)

theorem runOps_issued_lower (ops : List Op) :
    ∀ st : ClientState × ConnectLocal,
      ∀ id ∈ (runOps st ops).2.2, st.1.requestId ≤ id := by
  induction ops with
  | nil => intro st id h; cases h
  | cons op ops ih =>
    intro st id hid
    have hsplit : (runOps st (op :: ops)).2.2 =
        ((step st op).2.2).toList ++ (runOps (step st op).1 ops).2.2 := rfl
    rw [hsplit] at hid
    rcases List.mem_append.mp hid with hid | hid
    · cases h : (step st op).2.2 with
      | none => rw [h] at hid; cases hid
      | some i =>
        rw [h] at hid
        rcases List.mem_cons.mp hid with rfl | hid
        · exact le_of_eq ((step_requestId st op).2 id h).1.symm
        · cases hid
    · exact le_trans (step_requestId st op).1 (ih (step st op).1 id hid)

/-- C4.  For every sequence of operations on one `RelayClient` instance —
rpc calls, connects, closes, reconnect events — the request ids issued
are strictly increasing with no duplicates: the counter is never reset
by `connect`, `close` or reconnection. -/
theorem C4_request_ids_strictly_increasing (st : ClientState × ConnectLocal)
    (ops : List Op) :
    ((runOps st ops).2.2).Pairwise (· < ·) ∧ ((runOps st ops).2.2).Nodup := by
  have main : ∀ ops : List Op, ∀ st : ClientState × ConnectLocal,
      ((runOps st ops).2.2).Pairwise (· < ·) := by
    intro ops
    induction ops with
    | nil => intro st; exact List.Pairwise.nil
    | cons op ops ih =>
      intro st
      have hsplit : (runOps st (op :: ops)).2.2 =
          ((step st op).2.2).toList ++ (runOps (step st op).1 ops).2.2 := rfl
      rw [hsplit]
      cases h : (step st op).2.2 with
      | none => simpa using ih (step st op).1
      | some i =>
        simp only [Option.toList_some, List.singleton_append]
        rw [List.pairwise_cons]
        refine ⟨?_, ih (step st op).1⟩
        intro y hy
        have h1 := runOps_issued_lower ops (step st op).1 y hy
        have h2 := (step_requestId st op).2 i h
        omega
  refine ⟨main ops st, ?_⟩
  exact (main ops st).imp (fun hlt => Nat.ne_of_lt hlt)

/-! ## C5: the connect promise settles exactly once -/

/-- One step's settlement behaviour: with the promise already settled
nothing settles it again; with it unsettled, a settler op (server_update,
close, error) settles exactly once; any other non-connect op leaves it
unsettled and settles nothing. -/
theorem closeResolveEffects_no_settle (l : List Nat) :
    (closeResolveEffects l).countP isSettleEffect = 0 := by
  rw [List.countP_eq_zero]
  intro e he
  simp [(closeResolveEffects_shape l e he).2.2.1]

theorem handleTextMessage_settle (s : ClientState) (cl : ConnectLocal) (now : Nat)
    (m : InMsg) (r : ClientState × ConnectLocal × List Effect)
    (hm : ∀ name, m ≠ .serverUpdate name)
    (h : handleTextMessage s cl now m = .ok r) :
    r.2.1 = cl ∧ (r.2.2.countP isSettleEffect) = 0 := by
  unfold handleTextMessage at h
  cases m with
  | pong => cases h; exact ⟨rfl, rfl⟩
  | clientHelloFailure => cases h; exact ⟨rfl, rfl⟩
  | serverUpdate name => exact absurd rfl (hm name)
  | streamStart id => cases h; exact ⟨rfl, rfl⟩
  | streamChunkNotice id => cases h; exact ⟨rfl, rfl⟩
  | streamStop id =>
    dsimp only at h
    split at h
    · cases h; exact ⟨rfl, rfl⟩
    · cases h; exact ⟨rfl, rfl⟩
  | rpcResponse id resp =>
    dsimp only at h
    split at h
    · split at h
      · cases h
      · cases h; exact ⟨rfl, rfl⟩
      · cases h; exact ⟨rfl, rfl⟩
    · cases h; exact ⟨rfl, rfl⟩

theorem handleBinary_settle (s : ClientState) (cl : ConnectLocal) (d : List Nat)
    (r : ClientState × ConnectLocal × List Effect)
    (h : handleBinary s cl d = .ok r) :
    r.2.1 = cl ∧ (r.2.2.countP isSettleEffect) = 0 := by
  unfold handleBinary at h
  split at h
  · cases h; exact ⟨rfl, rfl⟩
  · dsimp only at h
    split at h
    · split at h
      · cases h
      · cases h; exact ⟨rfl, rfl⟩
      · cases h; exact ⟨rfl, rfl⟩
    · cases h; exact ⟨rfl, rfl⟩

theorem step_settle (st : ClientState × ConnectLocal) (op : Op)
    (hnc : isCallConnect op = false) :
    (st.2.settled = true →
      ((step st op).1).2.settled = true ∧
      ((step st op).2.1.countP isSettleEffect) = 0) ∧
    (st.2.settled = false → isSettlerOp op = true →
      ((step st op).1).2.settled = true ∧
      ((step st op).2.1.countP isSettleEffect) = 1) ∧
    (st.2.settled = false → isSettlerOp op = false →
      ((step st op).1).2.settled = false ∧
      ((step st op).2.1.countP isSettleEffect) = 0) := by
  cases op with
  | callConnect key => cases hnc
  | evOpen now a p c =>
    have hcount : ((step st (.evOpen now a p c)).2.1.countP isSettleEffect) = 0 := by
      unfold step handleOpen sendMsg
      dsimp only
      split <;> rfl
    have hcl : ((step st (.evOpen now a p c)).1).2.settled = st.2.settled := rfl
    exact ⟨fun h => ⟨hcl.trans h, hcount⟩,
      fun _ hs => by simp [isSettlerOp] at hs,
      fun h _ => ⟨hcl.trans h, hcount⟩⟩
  | evPong now =>
    exact ⟨fun h => ⟨h, rfl⟩, fun _ hs => by simp [isSettlerOp] at hs, fun h _ => ⟨h, rfl⟩⟩
  | evMsg now m =>
    by_cases hsu : ∃ name, m = .serverUpdate name
    · obtain ⟨name, rfl⟩ := hsu
      refine ⟨fun h => ?_, fun h _ => ?_, fun _ hs => by simp [isSettlerOp] at hs⟩
      · constructor
        · show ({ st.2 with fullyConnected := true, settled := true } : ConnectLocal).settled
            = true
          rfl
        · show (([Effect.showInfo "Connected to server", Effect.emitEvent "connected"] ++
            (if st.2.settled then [] else [Effect.settleResolve])).countP isSettleEffect) = 0
          rw [h]
          rfl
      · constructor
        · show ({ st.2 with fullyConnected := true, settled := true } : ConnectLocal).settled
            = true
          rfl
        · show (([Effect.showInfo "Connected to server", Effect.emitEvent "connected"] ++
            (if st.2.settled then [] else [Effect.settleResolve])).countP isSettleEffect) = 1
          rw [h]
          rfl
    · have hm : ∀ name, m ≠ .serverUpdate name := by
        intro name hcontra
        exact hsu ⟨name, hcontra⟩
      have key : ((step st (.evMsg now m)).1).2.settled = st.2.settled ∧
          ((step st (.evMsg now m)).2.1.countP isSettleEffect) = 0 := by
        unfold step
        dsimp only
        cases h : handleTextMessage st.1 st.2 now m with
        | ok r =>
          dsimp only
          have hsl := handleTextMessage_settle st.1 st.2 now m r hm h
          rw [hsl.1]
          exact ⟨rfl, hsl.2⟩
        | error e => exact ⟨rfl, rfl⟩
      have hsettler : isSettlerOp (.evMsg now m) = false := by
        cases m with
        | serverUpdate name => exact absurd rfl (hm name)
        | _ => rfl
      refine ⟨fun h => ⟨key.1.trans h, key.2⟩, ?_, fun h _ => ⟨key.1.trans h, key.2⟩⟩
      intro _ hs
      rw [hsettler] at hs
      cases hs
  | evBinary d =>
    have key : ((step st (.evBinary d)).1).2.settled = st.2.settled ∧
        ((step st (.evBinary d)).2.1.countP isSettleEffect) = 0 := by
      unfold step
      dsimp only
      cases h : handleBinary st.1 st.2 d with
      | ok r =>
        dsimp only
        have hsl := handleBinary_settle st.1 st.2 d r h
        rw [hsl.1]
        exact ⟨rfl, hsl.2⟩
      | error e => exact ⟨rfl, rfl⟩
    exact ⟨fun h => ⟨key.1.trans h, key.2⟩, fun _ hs => by simp [isSettlerOp] at hs,
      fun h _ => ⟨key.1.trans h, key.2⟩⟩
  | evClose =>
    have hcount0 : ∀ l1 l5, ((l1 ++
        (if st.1.heartbeat then [Effect.clearHeartbeat] else []) ++
        closeResolveEffects st.1.pending ++ [] ++ l5).countP isSettleEffect) =
          (l1.countP isSettleEffect) + (l5.countP isSettleEffect) := by
      intro l1 l5
      rw [List.countP_append, List.countP_append, List.countP_append, List.countP_append,
        closeResolveEffects_no_settle]
      have h1 : (if st.1.heartbeat then [Effect.clearHeartbeat] else []).countP
          isSettleEffect = 0 := by split <;> rfl
      rw [h1]
      simp
    refine ⟨fun h => ?_, fun h _ => ?_, fun _ hs => by simp [isSettlerOp] at hs⟩
    · constructor
      · show (if st.2.settled then st.2 else { st.2 with settled := true }).settled = true
        rw [h]
        exact h
      · show ((([Effect.emitEvent "disconnected"] ++
          (if st.1.heartbeat then [Effect.clearHeartbeat] else []) ++
          closeResolveEffects st.1.pending ++
          (if st.2.settled then []
            else [Effect.settleReject "Socket closed during connect"]) ++
          (if !st.1.dontAttemptToReconnect && st.2.fullyConnected then
            [Effect.showError "Connection lost, reconnecting...", Effect.scheduleReconnect]
            else [])).countP isSettleEffect)) = 0
        rw [h]
        have := hcount0 [Effect.emitEvent "disconnected"]
          (if !st.1.dontAttemptToReconnect && st.2.fullyConnected then
            [Effect.showError "Connection lost, reconnecting...", Effect.scheduleReconnect]
            else [])
        simp only [if_true] at this ⊢
        rw [this]
        split <;> rfl
    · constructor
      · show (if st.2.settled then st.2 else { st.2 with settled := true }).settled = true
        rw [h]
        rfl
      · show ((([Effect.emitEvent "disconnected"] ++
          (if st.1.heartbeat then [Effect.clearHeartbeat] else []) ++
          closeResolveEffects st.1.pending ++
          (if st.2.settled then []
            else [Effect.settleReject "Socket closed during connect"]) ++
          (if !st.1.dontAttemptToReconnect && st.2.fullyConnected then
            [Effect.showError "Connection lost, reconnecting...", Effect.scheduleReconnect]
            else [])).countP isSettleEffect)) = 1
        rw [h]
        simp only [if_false, Bool.false_eq_true]
        rw [List.countP_append, List.countP_append, List.countP_append, List.countP_append,
          closeResolveEffects_no_settle]
        have h1 : (if st.1.heartbeat then [Effect.clearHeartbeat] else []).countP
            isSettleEffect = 0 := by split <;> rfl
        have h2 : (if !st.1.dontAttemptToReconnect && st.2.fullyConnected then
            [Effect.showError "Connection lost, reconnecting...", Effect.scheduleReconnect]
            else []).countP isSettleEffect = 0 := by split <;> rfl
        rw [h1, h2]
        rfl
  | evError =>
    refine ⟨fun h => ?_, fun h _ => ?_, fun _ hs => by simp [isSettlerOp] at hs⟩
    · unfold step handleError
      dsimp only
      rw [if_pos h]
      exact ⟨h, rfl⟩
    · unfold step handleError
      dsimp only
      rw [if_neg (by simp [h])]
      exact ⟨rfl, rfl⟩
  | callRpc a pl =>
    have : ((step st (.callRpc a pl)).1).2.settled = st.2.settled ∧
        ((step st (.callRpc a pl)).2.1.countP isSettleEffect) = 0 := by
      unfold step rpc sendMsg
      dsimp only
      split
      · exact ⟨rfl, rfl⟩
      · dsimp only
        split <;> exact ⟨rfl, rfl⟩
    exact ⟨fun h => ⟨this.1.trans h, this.2⟩, fun _ hs => by simp [isSettlerOp] at hs,
      fun h _ => ⟨this.1.trans h, this.2⟩⟩
  | rpcTimeout id =>
    exact ⟨fun h => ⟨h, rfl⟩, fun _ hs => by simp [isSettlerOp] at hs, fun h _ => ⟨h, rfl⟩⟩
  | callStream id =>
    exact ⟨fun h => ⟨h, rfl⟩, fun _ hs => by simp [isSettlerOp] at hs, fun h _ => ⟨h, rfl⟩⟩
  | callStopStream id =>
    exact ⟨fun h => ⟨h, rfl⟩, fun _ hs => by simp [isSettlerOp] at hs, fun h _ => ⟨h, rfl⟩⟩
  | callDisconnect =>
    exact ⟨fun h => ⟨h, rfl⟩, fun _ hs => by simp [isSettlerOp] at hs, fun h _ => ⟨h, rfl⟩⟩

theorem runOps_settled_stays (ops : List Op) :
    ∀ st : ClientState × ConnectLocal,
      st.2.settled = true → (∀ op ∈ ops, isCallConnect op = false) →
      ((runOps st ops).2.1.countP isSettleEffect) = 0 := by
  induction ops with
  | nil => intro st _ _; rfl
  | cons op ops ih =>
    intro st hs hnc
    have h1 := (step_settle st op (hnc op (List.mem_cons_self op ops))).1 hs
    have hsplit : (runOps st (op :: ops)).2.1 =
        (step st op).2.1 ++ (runOps (step st op).1 ops).2.1 := rfl
    rw [hsplit, List.countP_append, h1.2,
      ih (step st op).1 h1.1 (fun x hx => hnc x (List.mem_cons_of_mem op hx))]

/-- C5.  Within one `connect` call, however the open, message
(`server_update`), close and error handlers fire and in whatever order,
the returned promise settles exactly once: zero settlements when no
settling event occurs, one settlement as soon as any does, and every
later attempt is a no-op guarded by the `settled` flag — so there is no
double resolution. -/
theorem C5_connect_settles_once (s : ClientState) (cl : ConnectLocal) (ops : List Op)
    (hsettled : cl.settled = false)
    (hnoconnect : ∀ op ∈ ops, isCallConnect op = false) :
    ((runOps (s, cl) ops).2.1.countP isSettleEffect) =
      (if ops.any isSettlerOp then 1 else 0) := by
  have main : ∀ ops : List Op, ∀ st : ClientState × ConnectLocal,
      st.2.settled = false → (∀ op ∈ ops, isCallConnect op = false) →
      ((runOps st ops).2.1.countP isSettleEffect) =
        (if ops.any isSettlerOp then 1 else 0) := by
    intro ops
    induction ops with
    | nil => intro st _ _; rfl
    | cons op ops ih =>
      intro st hs hnc
      have hnc0 := hnc op (List.mem_cons_self op ops)
      have hrest : ∀ x ∈ ops, isCallConnect x = false :=
        fun x hx => hnc x (List.mem_cons_of_mem op hx)
      have hsplit : (runOps st (op :: ops)).2.1 =
          (step st op).2.1 ++ (runOps (step st op).1 ops).2.1 := rfl
      rw [hsplit, List.countP_append]
      by_cases hso : isSettlerOp op = true
      · have h2 := (step_settle st op hnc0).2.1 hs hso
        rw [h2.2, runOps_settled_stays ops (step st op).1 h2.1 hrest]
        simp [List.any_cons, hso]
      · have hso' : isSettlerOp op = false := by simpa using hso
        have h3 := (step_settle st op hnc0).2.2 hs hso'
        rw [h3.2, ih (step st op).1 h3.1 hrest]
        simp [List.any_cons, hso']
  exact main ops (s, cl) hsettled hnoconnect

theorem C5_connect_settles_once_witness :
    ((⟨false, false⟩ : ConnectLocal).settled = false) ∧
    (∀ op ∈ ([Op.evOpen 0 "a" "p" "c", Op.evMsg 1 (.serverUpdate "srv"), Op.evClose,
        Op.evError] : List Op), isCallConnect op = false) ∧
    ((runOps (initialState, ⟨false, false⟩)
        [Op.evOpen 0 "a" "p" "c", Op.evMsg 1 (.serverUpdate "srv"), Op.evClose,
          Op.evError]).2.1.countP isSettleEffect) =
      (if ([Op.evOpen 0 "a" "p" "c", Op.evMsg 1 (.serverUpdate "srv"), Op.evClose,
          Op.evError] : List Op).any isSettlerOp then 1 else 0) :=
  ⟨rfl, by decide,
    C5_connect_settles_once initialState ⟨false, false⟩
      [Op.evOpen 0 "a" "p" "c", Op.evMsg 1 (.serverUpdate "srv"), Op.evClose, Op.evError]
      rfl (by decide)⟩

/-! ## C7: unmatched binary frames are dropped harmlessly -/

/-- C7.  A binary frame arriving with no pending-binary-chunk marker, or
whose marker's request id has no registered stream consumer, is dropped
without throwing: the handler returns normally with only a diagnostic log,
the pending-RPC map and the pending-streams map are unchanged, and no
stream chunk, stream end or RPC resolution callback is invoked. -/
theorem C7_binary_frame_dropped (s : ClientState) (cl : ConnectLocal) (d : List Nat)
    (h : s.pendingBinaryChunk = none ∨
      ∃ id, s.pendingBinaryChunk = some id ∧ s.pendingStreams.contains id = false) :
    ∃ s' effs, handleBinary s cl d = .ok (s', cl, effs) ∧
      s'.pending = s.pending ∧
      s'.pendingStreams = s.pendingStreams ∧
      ∀ e ∈ effs, isStreamChunkEffect e = false ∧ isStreamEndEffect e = false ∧
        isResolveEffect e = false := by
  rcases h with h | ⟨id, h1, h2⟩
  · refine ⟨s,
      [Effect.log "We received a binary chunk but we don't have a pending binary chunk!"],
      ?_, rfl, rfl, ?_⟩
    · unfold handleBinary
      rw [h]
    · intro e he
      rcases List.mem_cons.mp he with rfl | he
      · exact ⟨rfl, rfl, rfl⟩
      · cases he
  · refine ⟨{ s with pendingBinaryChunk := none },
      [Effect.log
        "We received a binary chunk but we don't have a pending binary chunk handler!"],
      ?_, rfl, rfl, ?_⟩
    · unfold handleBinary
      rw [h1]
      dsimp only
      rw [if_neg (by rw [h2]; exact Bool.false_ne_true)]
    · intro e he
      rcases List.mem_cons.mp he with rfl | he
      · exact ⟨rfl, rfl, rfl⟩
      · cases he

theorem C7_binary_frame_dropped_witness :
    (({ initialState with pendingBinaryChunk := some 5, pendingStreams := [7] } :
        ClientState).pendingBinaryChunk = none ∨
      ∃ id, ({ initialState with pendingBinaryChunk := some 5, pendingStreams := [7] } :
          ClientState).pendingBinaryChunk = some id ∧
        ({ initialState with pendingBinaryChunk := some 5, pendingStreams := [7] } :
          ClientState).pendingStreams.contains id = false) ∧
    (∃ s' effs,
      handleBinary { initialState with pendingBinaryChunk := some 5, pendingStreams := [7] }
          ⟨true, true⟩ [65, 66] = .ok (s', ⟨true, true⟩, effs) ∧
      s'.pending = ({ initialState with pendingBinaryChunk := some 5, pendingStreams := [7] } :
        ClientState).pending ∧
      s'.pendingStreams =
        ({ initialState with pendingBinaryChunk := some 5, pendingStreams := [7] } :
          ClientState).pendingStreams ∧
      ∀ e ∈ effs, isStreamChunkEffect e = false ∧ isStreamEndEffect e = false ∧
        isResolveEffect e = false) :=
  ⟨Or.inr ⟨5, rfl, by decide⟩,
    C7_binary_frame_dropped
      { initialState with pendingBinaryChunk := some 5, pendingStreams := [7] }
      ⟨true, true⟩ [65, 66] (Or.inr ⟨5, rfl, by decide⟩)⟩

/-! ## C9: stream-stop clears the marker unconditionally -/

/-- C9 counterexample.  The claim says a `server_rpc_stream_stop{7}` for a
registered stream clears the pending-binary-chunk marker only if it
referenced request id 7, leaving a marker for a different id unchanged.
In the code (relay.ts 179-182) `pendingBinaryChunk = null` runs
unconditionally inside the handler branch: with streams `{7}` registered
and the marker referencing id 9, stop{7} still clears the marker. -/
theorem C9_counterexample :
    handleTextMessage
        { initialState with pendingStreams := [7], pendingBinaryChunk := some 9 }
        ⟨true, true⟩ 0 (.streamStop 7) =
      .ok ({ initialState with pendingStreams := [], pendingBinaryChunk := none },
        ⟨true, true⟩, [Effect.streamEnd 7]) ∧
    ({ initialState with pendingStreams := [7], pendingBinaryChunk := some 9 } :
      ClientState).pendingBinaryChunk = some 9 ∧
    (9 : Nat) ≠ 7 :=
  ⟨rfl, rfl, by decide⟩

/-- C9 (amended).  For every `server_rpc_stream_stop{N}` received while a
stream consumer is registered for `N`, the end callback for `N` is
invoked exactly once and the entry is removed, and the
pending-binary-chunk marker is cleared unconditionally — whatever request
id it referenced. -/
theorem C9_stream_stop (s : ClientState) (cl : ConnectLocal) (now : Nat) (id : Nat)
    (hreg : s.pendingStreams.contains id = true) (hnd : s.pendingStreams.Nodup) :
    handleTextMessage s cl now (.streamStop id) =
      .ok ({ s with
          pendingStreams := s.pendingStreams.erase id
          pendingBinaryChunk := none },
        cl, [Effect.streamEnd id]) ∧
    id ∉ s.pendingStreams.erase id := by
  constructor
  · unfold handleTextMessage
    dsimp only
    rw [if_pos hreg]
  · exact hnd.not_mem_erase

theorem C9_stream_stop_witness :
    (({ initialState with pendingStreams := [7], pendingBinaryChunk := some 9 } :
        ClientState).pendingStreams.contains 7 = true) ∧
    (({ initialState with pendingStreams := [7], pendingBinaryChunk := some 9 } :
        ClientState).pendingStreams.Nodup) ∧
    (handleTextMessage
        { initialState with pendingStreams := [7], pendingBinaryChunk := some 9 }
        ⟨false, true⟩ 3 (.streamStop 7) =
      .ok ({ ({ initialState with pendingStreams := [7], pendingBinaryChunk := some 9 } :
            ClientState) with
          pendingStreams := (({ initialState with pendingStreams := [7], pendingBinaryChunk := some 9 } : ClientState).pendingStreams.erase 7)
          pendingBinaryChunk := none },
        ⟨false, true⟩, [Effect.streamEnd 7]) ∧
      7 ∉ ({ initialState with pendingStreams := [7], pendingBinaryChunk := some 9 } :
        ClientState).pendingStreams.erase 7) :=
  ⟨by decide, by decide,
    C9_stream_stop { initialState with pendingStreams := [7], pendingBinaryChunk := some 9 }
      ⟨false, true⟩ 3 7 (by decide) (by decide)⟩

/-! ## C8: malformed payloads -/

/-- C8 counterexample.  The claim says malformed base64/JSON raises a
`ProtocolDecodeError` and a malformed `server_rpc_response` payload is
logged and dropped without terminating the connection.  No such error
class exists in the code, and the `server_rpc_response` branch
(relay.ts 186-195) calls `decode` with no try/catch: for the pending
request 5, the payload `"!!!"` (whose base64 decode is empty, so
`JSON.parse` throws) makes the message handler itself throw instead of
logging and dropping. -/
theorem C8_counterexample :
    decode (.text [33, 33, 33]) none false = .error "SyntaxError: JSON.parse" ∧
    exceptOk (handleTextMessage { initialState with connected := true, pending := [5] }
      ⟨true, true⟩ 0 (.rpcResponse 5 [33, 33, 33])) = false :=
  ⟨rfl, rfl⟩

/-- C8 (amended).  `decode` surfaces malformed base64/JSON as the
underlying `JSON.parse` exception (there is no `ProtocolDecodeError`
wrapper in the code), and in the `server_rpc_response` branch this
exception propagates out of the message handler uncaught whenever the
request id is pending — the frame is not logged-and-dropped and the
pending entry is not removed.  Only a response for an id with no pending
entry is dropped silently. -/
theorem C8_malformed_response_uncaught (s : ClientState) (cl : ConnectLocal) (now : Nat)
    (id : Nat) (resp : List Nat) (e : String)
    (hpend : s.pending.contains id = true)
    (hdec : decode (.text resp) s.encryptionKey false = .error e) :
    handleTextMessage s cl now (.rpcResponse id resp) = .error e ∧
    (∀ id2 resp2, s.pending.contains id2 = false →
      handleTextMessage s cl now (.rpcResponse id2 resp2) = .ok (s, cl, [])) := by
  constructor
  · unfold handleTextMessage
    dsimp only
    rw [if_pos hpend, hdec]
  · intro id2 resp2 h2
    unfold handleTextMessage
    dsimp only
    rw [if_neg (by rw [h2]; exact Bool.false_ne_true)]

theorem C8_malformed_response_uncaught_witness :
    (({ initialState with connected := true, pending := [5] } :
        ClientState).pending.contains 5 = true) ∧
    (decode (.text [33, 33, 33])
      ({ initialState with connected := true, pending := [5] } :
        ClientState).encryptionKey false = .error "SyntaxError: JSON.parse") ∧
    (handleTextMessage { initialState with connected := true, pending := [5] }
        ⟨true, true⟩ 0 (.rpcResponse 5 [33, 33, 33]) =
          .error "SyntaxError: JSON.parse" ∧
      (∀ id2 resp2,
        ({ initialState with connected := true, pending := [5] } :
          ClientState).pending.contains id2 = false →
        handleTextMessage { initialState with connected := true, pending := [5] }
          ⟨true, true⟩ 0 (.rpcResponse id2 resp2) =
            .ok ({ initialState with connected := true, pending := [5] }, ⟨true, true⟩, []))) :=
  ⟨by decide, rfl,
    C8_malformed_response_uncaught { initialState with connected := true, pending := [5] }
      ⟨true, true⟩ 0 5 [33, 33, 33] "SyntaxError: JSON.parse" (by decide) rfl⟩

end GmsvRemote
